import Mathlib

/-!
# Content Origin Credential System — verification of the credential core

A shallow embedding of the credential protocol implemented in
`credential_system.py`, `credential_system_v2.py` and `credential_system_v3.py`:
canonical JSON serialization, fingerprint bundles, DID validation, detached JWS
signing/verification, credential assembly and revocation checking.

Modelling conventions:
* Byte strings (`bytes`) are `List Nat`, each entry intended to be `< 256`.
* Python dicts holding JSON data are `Json.obj` association lists in insertion
  order; `json.dumps(..., sort_keys=True)` sorts keys at emission time, which
  the serializer below reproduces.
* `hashlib.sha256` is implemented bit-for-bit (FIPS 180-4).
* `datetime.now(...)` and `uuid.uuid4()` are nondeterministic inputs of the
  Python code; they appear here as explicit parameters (`created_at`,
  `credentialId`, `now`).
* The RSA-PSS primitive from the `cryptography` library is an external
  collaborator; it is abstracted as a `SigScheme` (a sign function and a
  verify predicate).  Theorems that depend on cryptographic soundness take
  the scheme's correctness/unforgeability as explicit hypotheses; a concrete
  scheme (`demoScheme`) satisfying both instantiates the witnesses.
-/

set_option maxHeartbeats 4000000
set_option maxRecDepth 10000

/-! ## Bytes, whitespace, case folding (Python `bytes.strip` / `bytes.lower`) -/

/-- ASCII whitespace recognized by Python `bytes.strip()`:
space, tab, newline, carriage return, vertical tab, form feed. -/
def isWSByte (b : Nat) : Bool :=
  b == 32 || b == 9 || b == 10 || b == 13 || b == 11 || b == 12

/-- Python `bytes.lower()` on a single byte: fold A-Z to a-z. -/
def lowerByte (b : Nat) : Nat :=
  if 65 ≤ b ∧ b ≤ 90 then b + 32 else b

/-- Python `bytes.lower()`. -/
def bytesLower (bs : List Nat) : List Nat := bs.map lowerByte

/-- Python `bytes.strip()` (no argument): drop ASCII whitespace at both ends. -/
def bytesStrip (bs : List Nat) : List Nat :=
  (((bs.dropWhile isWSByte).reverse).dropWhile isWSByte).reverse

/-! ## Hex rendering (Python `hexdigest`, lowercase) -/

/-- Two lowercase hex digits of a byte. -/
def byteToHex (b : Nat) : List Char :=
  [Nat.digitChar (b / 16 % 16), Nat.digitChar (b % 16)]

/-! ## SHA-256 (FIPS 180-4), the algorithm behind `hashlib.sha256` -/

/-- Addition modulo 2^32. -/
def wadd (a b : Nat) : Nat := (a + b) % 4294967296

/-- Right rotation of a 32-bit word. -/
def rotr32 (k n : Nat) : Nat :=
  ((n >>> k) ||| (n <<< (32 - k))) % 4294967296

/-- SHA-256 Ch function. -/
def shaCh (x y z : Nat) : Nat := (x &&& y) ^^^ ((x ^^^ 4294967295) &&& z)

/-- SHA-256 Maj function. -/
def shaMaj (x y z : Nat) : Nat := (x &&& y) ^^^ (x &&& z) ^^^ (y &&& z)

/-- SHA-256 Σ0. -/
def bsig0 (x : Nat) : Nat := rotr32 2 x ^^^ rotr32 13 x ^^^ rotr32 22 x

/-- SHA-256 Σ1. -/
def bsig1 (x : Nat) : Nat := rotr32 6 x ^^^ rotr32 11 x ^^^ rotr32 25 x

/-- SHA-256 σ0. -/
def ssig0 (x : Nat) : Nat := rotr32 7 x ^^^ rotr32 18 x ^^^ (x >>> 3)

/-- SHA-256 σ1. -/
def ssig1 (x : Nat) : Nat := rotr32 17 x ^^^ rotr32 19 x ^^^ (x >>> 10)

/-- SHA-256 round constants. -/
def shaK : List Nat :=
  [1116352408, 1899447441, 3049323471, 3921009573, 961987163, 1508970993,
   2453635748, 2870763221, 3624381080, 310598401, 607225278, 1426881987,
   1925078388, 2162078206, 2614888103, 3248222580, 3835390401, 4022224774,
   264347078, 604807628, 770255983, 1249150122, 1555081692, 1996064986,
   2554220882, 2821834349, 2952996808, 3210313671, 3336571891, 3584528711,
   113926993, 338241895, 666307205, 773529912, 1294757372, 1396182291,
   1695183700, 1986661051, 2177026350, 2456956037, 2730485921, 2820302411,
   3259730800, 3345764771, 3516065817, 3600352804, 4094571909, 275423344,
   430227734, 506948616, 659060556, 883997877, 958139571, 1322822218,
   1537002063, 1747873779, 1955562222, 2024104815, 2227730452, 2361852424,
   2428436474, 2756734187, 3204031479, 3329325298]

/-- SHA-256 initial hash value. -/
def shaH0 : List Nat :=
  [1779033703, 3144134277, 1013904242, 2773480762,
   1359893119, 2600822924, 528734635, 1541459225]

/-- Big-endian 32-bit words from bytes (groups of four). -/
def bytesToWords : List Nat → List Nat
  | b0 :: b1 :: b2 :: b3 :: rest =>
      (b0 * 16777216 + b1 * 65536 + b2 * 256 + b3) :: bytesToWords rest
  | _ => []

/-- Big-endian bytes of a 32-bit word. -/
def wordToBytes (w : Nat) : List Nat :=
  [w / 16777216 % 256, w / 65536 % 256, w / 256 % 256, w % 256]

/-- Extend the 16-word message schedule; `fuel` counts the words still to add. -/
def extendW : Nat → List Nat → List Nat
  | 0, w => w
  | fuel + 1, w =>
      let i := w.length
      let x := wadd (wadd (ssig1 (w.getD (i - 2) 0)) (w.getD (i - 7) 0))
                    (wadd (ssig0 (w.getD (i - 15) 0)) (w.getD (i - 16) 0))
      extendW fuel (w ++ [x])

/-- The 64 compression rounds; the state is the list `[a,b,c,d,e,f,g,h]`. -/
def shaRounds : List Nat → List Nat → List Nat → List Nat
  | k :: ks, wv :: ws, [a, b, c, d, e, f, g, h] =>
      let t1 := wadd h (wadd (bsig1 e) (wadd (shaCh e f g) (wadd k wv)))
      let t2 := wadd (bsig0 a) (shaMaj a b c)
      shaRounds ks ws [wadd t1 t2, a, b, c, wadd d t1, e, f, g]
  | _, _, st => st

/-- Compress one 64-byte block into the running hash (eight words). -/
def shaCompress (h : List Nat) (block : List Nat) : List Nat :=
  let w := extendW 48 (bytesToWords block)
  List.zipWith wadd h (shaRounds shaK w h)

/-- The 64-bit big-endian length field. -/
def be64 (n : Nat) : List Nat :=
  [n >>> 56 % 256, n >>> 48 % 256, n >>> 40 % 256, n >>> 32 % 256,
   n >>> 24 % 256, n >>> 16 % 256, n >>> 8 % 256, n % 256]

/-- SHA-256 message padding: `0x80`, zeros to 56 mod 64, then the bit length. -/
def sha256pad (msg : List Nat) : List Nat :=
  let L := msg.length
  let z := (119 - L % 64) % 64
  msg ++ 128 :: List.replicate z 0 ++ be64 (8 * L)

/-- Fixed-size segmentation of a byte string, fuel-driven (the fuel is the
length of the list, enough whenever `0 < size`).  Shared by SHA-256 block
splitting and by `PerceptualHash.compute_video_segment_hashes`. -/
def segmentsGo (size : Nat) : Nat → List Nat → List (List Nat)
  | _, [] => []
  | 0, _ => []
  | fuel + 1, b :: rest =>
      (b :: rest).take size :: segmentsGo size fuel ((b :: rest).drop size)

/-- The consecutive `size`-byte segments of a byte string
(Python `range(0, len(bs), size)` slicing). -/
def segmentsOf (size : Nat) (bs : List Nat) : List (List Nat) :=
  segmentsGo size bs.length bs

/-- SHA-256 digest (32 bytes) of a byte string. -/
def sha256bytes (msg : List Nat) : List Nat :=
  (((segmentsOf 64 (sha256pad msg)).foldl shaCompress shaH0).map wordToBytes).flatten

/-- Lowercase hex characters of the SHA-256 digest (`hexdigest()`). -/
def sha256hexChars (msg : List Nat) : List Char :=
  ((sha256bytes msg).map byteToHex).flatten

/-- Python `hashlib.sha256(msg).hexdigest()`. -/
def sha256hex (msg : List Nat) : String :=
  String.mk (sha256hexChars msg)

/-! ## UTF-8 (Python `str.encode('utf-8')`) -/

/-- UTF-8 bytes of one code point. -/
def utf8Char (c : Char) : List Nat :=
  let n := c.toNat
  if n < 128 then [n]
  else if n < 2048 then [192 + n / 64, 128 + n % 64]
  else if n < 65536 then [224 + n / 4096, 128 + n / 64 % 64, 128 + n % 64]
  else [240 + n / 262144, 128 + n / 4096 % 64, 128 + n / 64 % 64, 128 + n % 64]

/-- UTF-8 bytes of a character list. -/
def utf8EncodeList (cs : List Char) : List Nat := (cs.map utf8Char).flatten

/-- Python `s.encode('utf-8')`. -/
def utf8Encode (s : String) : List Nat := utf8EncodeList s.data

/-! ## Base64 (Python `base64.urlsafe_b64encode` / `b64encode`) -/

/-- The base64url alphabet (RFC 4648 §5). -/
def b64urlAlphabet : List Char :=
  "ABCDEFGHIJKLMNOPQRSTUVWXYZabcdefghijklmnopqrstuvwxyz0123456789-_".data

/-- The standard base64 alphabet (RFC 4648 §4), used by v1's `b64encode`. -/
def b64stdAlphabet : List Char :=
  "ABCDEFGHIJKLMNOPQRSTUVWXYZabcdefghijklmnopqrstuvwxyz0123456789+/".data

/-- Character for a six-bit group under a given alphabet. -/
def b64char (alpha : List Char) (n : Nat) : Char := alpha.getD n 'A'

/-- Six-bit value of an alphabet character. -/
def b64val (alpha : List Char) (c : Char) : Nat := alpha.indexOf c

/-- Base64 encoding without padding, three input bytes per four characters. -/
def b64encodeChars (alpha : List Char) : List Nat → List Char
  | [] => []
  | [a] => [b64char alpha (a / 4), b64char alpha (a % 4 * 16)]
  | [a, b] => [b64char alpha (a / 4), b64char alpha (a % 4 * 16 + b / 16),
               b64char alpha (b % 16 * 4)]
  | a :: b :: c :: rest =>
      b64char alpha (a / 4) :: b64char alpha (a % 4 * 16 + b / 16) ::
      b64char alpha (b % 16 * 4 + c / 64) :: b64char alpha (c % 64) ::
      b64encodeChars alpha rest

/-- Python `base64.urlsafe_b64encode(bs).decode('utf-8').rstrip('=')`. -/
def b64urlEncodeNoPad (bs : List Nat) : String :=
  String.mk (b64encodeChars b64urlAlphabet bs)

/-- Python `base64.b64encode(bs).decode('utf-8')` (standard alphabet, with padding),
as used by v1's `sign_credential`. -/
def b64stdEncode (bs : List Nat) : String :=
  String.mk (b64encodeChars b64stdAlphabet bs) ++
    (if bs.length % 3 = 1 then "==" else if bs.length % 3 = 2 then "=" else "")

/-- Base64 decoding of an unpadded character stream (the effect of
`base64.urlsafe_b64decode` after the caller re-adds `'='` padding). -/
def b64decodeChars (alpha : List Char) : List Char → List Nat
  | c1 :: c2 :: c3 :: c4 :: rest =>
      (b64val alpha c1 * 4 + b64val alpha c2 / 16) ::
      (b64val alpha c2 % 16 * 16 + b64val alpha c3 / 4) ::
      (b64val alpha c3 % 4 * 64 + b64val alpha c4) ::
      b64decodeChars alpha rest
  | [c1, c2] => [b64val alpha c1 * 4 + b64val alpha c2 / 16]
  | [c1, c2, c3] => [b64val alpha c1 * 4 + b64val alpha c2 / 16,
                     b64val alpha c2 % 16 * 16 + b64val alpha c3 / 4]
  | _ => []

/-- Python `base64.urlsafe_b64decode(s + '=' * (4 - len(s) % 4))`. -/
def b64urlDecode (s : String) : List Nat := b64decodeChars b64urlAlphabet s.data

/-! ## JSON values and `json.dumps` -/

/-- JSON values as passed to `json.dumps`: Python str, int, bool, None, list,
dict (association list in insertion order, keys unique in any dict Python can
build). -/
inductive Json where
  | str (s : String)
  | num (n : Int)
  | bool (b : Bool)
  | null
  | arr (xs : List Json)
  | obj (kvs : List (String × Json))

/-- First binding of a key in a JSON object (Python `dict.get`). -/
def Json.get? : Json → String → Option Json
  | .obj kvs, k => kvs.lookup k
  | _, _ => none

/-- Strict lexicographic code-point comparison of character lists
(Python `<` on `str`). -/
def strLtChars : List Char → List Char → Bool
  | [], [] => false
  | [], _ :: _ => true
  | _ :: _, [] => false
  | c :: cs, d :: ds =>
      if c.toNat < d.toNat then true
      else if d.toNat < c.toNat then false
      else strLtChars cs ds

/-- Non-strict code-point comparison of strings. -/
def strLeb (s t : String) : Bool := !(strLtChars t.data s.data)

/-- Key order used by `sort_keys=True`: code-point comparison of the keys. -/
def keyLE (p q : String × String) : Prop := strLeb p.1 q.1 = true

instance : DecidableRel keyLE := fun p q => inferInstanceAs (Decidable (_ = true))

/-- Sort the members of an object by key (`sort_keys=True`). -/
def sortPairs (l : List (String × String)) : List (String × String) :=
  List.insertionSort keyLE l

/-- The `json.dumps` escaping of one character inside a string literal
(`ensure_ascii=False`): escape the quote, the backslash, and control
characters; emit everything else raw. -/
def escChar (c : Char) : List Char :=
  if c = '"' then ['\\', '"']
  else if c = '\\' then ['\\', '\\']
  else if c = '\n' then ['\\', 'n']
  else if c = '\t' then ['\\', 't']
  else if c = '\r' then ['\\', 'r']
  else if c.toNat = 8 then ['\\', 'b']
  else if c.toNat = 12 then ['\\', 'f']
  else if c.toNat < 32 then
    ['\\', 'u', '0', '0', Nat.digitChar (c.toNat / 16), Nat.digitChar (c.toNat % 16)]
  else [c]

/-- A JSON string literal: quotes around the escaped characters. -/
def quoteStr (s : String) : String :=
  String.mk ('"' :: (s.data.map escChar).flatten ++ ['"'])

/-- Render the sorted members `"key":value` of an object. -/
def renderMembers (kvSep : String) (l : List (String × String)) : List String :=
  l.map (fun p => quoteStr p.1 ++ kvSep ++ p.2)

mutual

/-- Python `json.dumps(j, ensure_ascii=False, sort_keys=True)` with the given
`separators=(itemSep, kvSep)`: keys sorted at emission, Python literals for
atoms, recursive rendering for arrays and objects. -/
def serJson (itemSep kvSep : String) : Json → String
  | .str s => quoteStr s
  | .num n => toString n
  | .bool b => Bool.rec "false" "true" b
  | .null => "null"
  | .arr xs => "[" ++ String.intercalate itemSep (serArr itemSep kvSep xs) ++ "]"
  | .obj kvs =>
      "\x7b" ++ String.intercalate itemSep
        (renderMembers kvSep (sortPairs (serPairs itemSep kvSep kvs))) ++ "\x7d"
termination_by structural j => j

/-- Rendered elements of a JSON array, in order. -/
def serArr (itemSep kvSep : String) : List Json → List String
  | [] => []
  | x :: rest => serJson itemSep kvSep x :: serArr itemSep kvSep rest
termination_by structural l => l

/-- Members of a JSON object with values rendered, keys kept, insertion order
kept (sorting happens at emission). -/
def serPairs (itemSep kvSep : String) : List (String × Json) → List (String × String)
  | [] => []
  | (k, v) :: rest => (k, serJson itemSep kvSep v) :: serPairs itemSep kvSep rest
termination_by structural l => l

end

/-- The v2/v3 `CanonicalJSON.serialize`: `json.dumps(obj, ensure_ascii=False,
separators=(',', ':'), sort_keys=True).encode('utf-8')`. -/
def CanonicalJSON.serialize (obj : Json) : List Nat :=
  utf8Encode (serJson "," ":" obj)

/-- Python `json.dumps(obj, sort_keys=True)` with the default separators
`(', ', ': ')`, as used by v1's `sign_credential`. -/
def dumpsSortedDefault (obj : Json) : List Nat :=
  utf8Encode (serJson ", " ": " obj)

/-! ## Python truthiness -/

/-- Python truth-value testing on JSON-shaped values (`if x:`):
`None`, `False`, `0`, `""`, `[]`, and the empty dict are falsy. -/
def pyFalsy : Json → Bool
  | .null => true
  | .bool b => !b
  | .num n => n == 0
  | .str s => s.data.isEmpty
  | .arr xs => xs.isEmpty
  | .obj kvs => kvs.isEmpty

/-! ## `PerceptualHash` (v3, lines 45-66; identical in v2) -/

namespace PerceptualHash

/-- The source `compute_image_phash`:
`f"phash:{hashlib.sha256(image_bytes[:1000]).hexdigest()[:16]}"`. -/
def compute_image_phash (image_bytes : List Nat) : String :=
  "phash:" ++ String.mk ((sha256hexChars (image_bytes.take 1000)).take 16)

/-- The source `compute_video_segment_hashes`: truncated digest of each consecutive
`segment_size`-byte slice, labelled with the segment index, capped at ten
(`segments[:10]`). -/
def compute_video_segment_hashes (video_bytes : List Nat)
    (segment_size : Nat := 1048576) : List String :=
  (((segmentsOf segment_size video_bytes).enum).map
    (fun p => "seg_" ++ toString p.1 ++ ":" ++
      String.mk ((sha256hexChars p.2).take 16))).take 10

/-- The source `compute_text_fingerprint`:
`f"textfp:{hashlib.sha256(text).hexdigest()[:16]}"`. -/
def compute_text_fingerprint (text : List Nat) : String :=
  "textfp:" ++ String.mk ((sha256hexChars text).take 16)

end PerceptualHash

/-! ## `FingerprintBundle` (v3, lines 69-104; identical in v2) -/

namespace FingerprintBundle

/-- The source `create_for_image`: exact digest over raw bytes plus perceptual hash. -/
def create_for_image (image_bytes : List Nat) : Json :=
  .obj [("sha256_canonical", .str (sha256hex image_bytes)),
        ("perceptualHash", .str (PerceptualHash.compute_image_phash image_bytes)),
        ("algorithm", .str "sha256+phash")]

/-- The source `create_for_video`: exact digest over raw bytes plus rolling segment
hashes. -/
def create_for_video (video_bytes : List Nat) : Json :=
  .obj [("sha256_canonical", .str (sha256hex video_bytes)),
        ("segmentHashes", .arr ((PerceptualHash.compute_video_segment_hashes
          video_bytes).map Json.str)),
        ("algorithm", .str "sha256+rolling_segments")]

/-- The source `create_for_text`: in canonical mode the exact digest is taken over
`text_bytes.strip().lower()`, otherwise over the raw bytes; the text
fingerprint is always over the raw (unnormalized) bytes, and the applied
normalization is recorded. -/
def create_for_text (text_bytes : List Nat) (canonical : Bool := true) : Json :=
  let sha_canonical :=
    if canonical then sha256hex (bytesLower (bytesStrip text_bytes))
    else sha256hex text_bytes
  .obj [("sha256_canonical", .str sha_canonical),
        ("textFingerprint", .str (PerceptualHash.compute_text_fingerprint text_bytes)),
        ("algorithm", .str "sha256_normalized+textfp"),
        ("canonicalization", .str (if canonical then "strip_whitespace_lowercase" else "none"))]

end FingerprintBundle

/-! ## `DIDManager` (v3, lines 107-141; v1 `credential_system.py`, lines 22-97) -/

/-- The class `[a-z0-9]`. -/
def isLowerOrDigit (c : Char) : Bool :=
  (97 ≤ c.toNat && c.toNat ≤ 122) || (48 ≤ c.toNat && c.toNat ≤ 57)

/-- The v1/v2 "safe" DID body class `[a-zA-Z0-9._:%-]`. -/
def didSafeChar (c : Char) : Bool :=
  (97 ≤ c.toNat && c.toNat ≤ 122) || (65 ≤ c.toNat && c.toNat ≤ 90) ||
  (48 ≤ c.toNat && c.toNat ≤ 57) ||
  c == '.' || c == '_' || c == ':' || c == '%' || c == '-'

/-- The v1/v2 final-character class `[a-zA-Z0-9._-]`. -/
def didFinalChar (c : Char) : Bool :=
  (97 ≤ c.toNat && c.toNat ≤ 122) || (65 ≤ c.toNat && c.toNat ≤ 90) ||
  (48 ≤ c.toNat && c.toNat ≤ 57) ||
  c == '.' || c == '_' || c == '-'

/-- Python `re` `.+$` (no DOTALL): one or more non-newline characters, with
`$` also matching just before a single trailing newline. -/
def reTailAnyPlus (cs : List Char) : Bool :=
  let cs' := if cs.getLast? = some '\n' then cs.dropLast else cs
  !cs'.isEmpty && cs'.all (fun c => c != '\n')

/-- Python `re` `[a-zA-Z0-9._:%-]*[a-zA-Z0-9._-]$`: nonempty, last character
from the final class, earlier characters from the safe class, with the same
trailing-newline allowance for `$`. -/
def reTailSafeClass (cs : List Char) : Bool :=
  let cs' := if cs.getLast? = some '\n' then cs.dropLast else cs
  match cs'.getLast? with
  | none => false
  | some last => didFinalChar last && cs'.dropLast.all didSafeChar

/-- After `did:` and a first method character: consume `[a-z0-9]*`, then `:`,
then hand the rest to the method-specific-id matcher. -/
def didMethodRest (tail : List Char → Bool) : List Char → Bool
  | [] => false
  | c :: rest =>
      if c = ':' then tail rest
      else if isLowerOrDigit c then didMethodRest tail rest
      else false

/-- The pattern `^did:[a-z0-9]+:` followed by a method-specific-id matcher. -/
def didPattern (tail : List Char → Bool) (cs : List Char) : Bool :=
  match cs with
  | 'd' :: 'i' :: 'd' :: ':' :: c :: rest =>
      isLowerOrDigit c && didMethodRest tail rest
  | _ => false

namespace DIDManager

/-- v3 `validate_did`: `bool(re.match(r'^did:[a-z0-9]+:.+$', did)) and
len(did) <= 512`. -/
def validate_did (did : String) : Bool :=
  didPattern reTailAnyPlus did.data && did.length ≤ 512

/-- v1/v2 `validate_did`:
`bool(re.match(r'^did:[a-z0-9]+:[a-zA-Z0-9._:%-]*[a-zA-Z0-9._-]$', did))`
(no length bound). -/
def validate_did_v1 (did : String) : Bool :=
  didPattern reTailSafeClass did.data

/-- v2/v3 `create_key_id`: `f"{did}#key-{key_index}"`. -/
def create_key_id (did : String) (key_index : Nat := 1) : String :=
  did ++ "#key-" ++ toString key_index

/-- v2/v3 `generate_did_web`. -/
def generate_did_web (domain : String) (path : String := "") : String :=
  if path.data.isEmpty then "did:web:" ++ domain
  else "did:web:" ++ domain ++ ":" ++ String.mk (path.data.map
    (fun c => if c = '/' then ':' else c))

end DIDManager

/-! ## Abstract asymmetric signature primitive

The `cryptography` library's RSA-PSS sign/verify pair is an external
collaborator (not part of the repository).  It is modelled as an abstract
scheme: `sign` maps a message to signature bytes, `verify` checks signature
bytes against a message.  PSS verification raises `InvalidSignature` on
mismatch, which `verify_detached` catches. -/

structure SigScheme where
  sign : List Nat → List Nat
  verify : List Nat → List Nat → Bool

/-! ## `JWSDetached` (v3, lines 144-232; v2, lines 162-268, identical code) -/

namespace JWSDetached

/-- The source `create_jws_header`: the dict
`{"alg": algorithm, "kid": key_id, "typ": "JWS", "iat": created_at}`,
also rebuilt verbatim by `verify_detached` from the container's fields. -/
def create_jws_header (algorithm key_id created_at : String) : Json :=
  .obj [("alg", .str algorithm), ("kid", .str key_id),
        ("typ", .str "JWS"), ("iat", .str created_at)]

/-- The JWS signing input
`f"{header_b64}.{payload_b64}".encode('utf-8')` with both parts
base64url-encoded without padding. -/
def signingInput (payload_bytes : List Nat) (algorithm key_id created_at : String) :
    List Nat :=
  let header_b64 := b64urlEncodeNoPad
    (CanonicalJSON.serialize (create_jws_header algorithm key_id created_at))
  let payload_b64 := b64urlEncodeNoPad payload_bytes
  utf8Encode (header_b64 ++ "." ++ payload_b64)

/-- The source `sign_detached`: sign the signing input and emit the detached container
`{"type": "JWS-detached", "alg": ..., "kid": ..., "created": ...,
"signature": ...}`.  `created_at` stands for `datetime.now(timezone.utc)`
formatted to seconds precision. -/
def sign_detached (payload_bytes : List Nat) (private_key : SigScheme)
    (algorithm key_id : String) (created_at : String) : List (String × String) :=
  let signature := private_key.sign (signingInput payload_bytes algorithm key_id created_at)
  let signature_b64 := b64urlEncodeNoPad signature
  [("type", "JWS-detached"), ("alg", algorithm), ("kid", key_id),
   ("created", created_at), ("signature", signature_b64)]

/-- A missing dict key raises `KeyError` inside the `try` block. -/
def keyLookup (container : List (String × String)) (k : String) :
    Except String String :=
  match container.lookup k with
  | some v => Except.ok v
  | none => Except.error ("KeyError: " ++ k)

/-- The body of `verify_detached` up to the end of the `try` block:
rebuild the header from the container's own fields, rebuild the signing
input, decode the signature, and run the asymmetric verify, which raises
`InvalidSignature` (an exception, caught by the caller) on mismatch. -/
def verify_detached_body (payload_bytes : List Nat)
    (signature_container : List (String × String)) (public_key : SigScheme) :
    Except String Bool := do
  let alg ← keyLookup signature_container "alg"
  let kid ← keyLookup signature_container "kid"
  let created ← keyLookup signature_container "created"
  let sig_b64 ← keyLookup signature_container "signature"
  let signature := b64urlDecode sig_b64
  if public_key.verify signature (signingInput payload_bytes alg kid created) then
    pure true
  else
    Except.error "InvalidSignature"

/-- The source `verify_detached`: the whole body runs inside
`try: ... except Exception: return False`, so every raised error — including
`KeyError` for a structurally incomplete container and `InvalidSignature`
for a failed cryptographic check — becomes the ordinary return value
`False`. -/
def verify_detached (payload_bytes : List Nat)
    (signature_container : List (String × String)) (public_key : SigScheme) : Bool :=
  match verify_detached_body payload_bytes signature_container public_key with
  | .ok b => b
  | .error _ => false

end JWSDetached

/-! ## `ContentOriginCredential` (v3, lines 235-390) -/

namespace ContentOriginCredential

/-- v3 `sign_credential` (lines 322-339): derive the `kid`, canonicalize the
credential, store the detached container in `self.signature_container`.  The
result pair is (signature container, credential state after the call): the
method never writes to `self.credential`. -/
def sign_credential (private_key : SigScheme) (credential : Json)
    (creator_did : String) (key_index : Nat) (created_at : String) :
    List (String × String) × Json :=
  let kid := DIDManager.create_key_id creator_did key_index
  let canonical_bytes := CanonicalJSON.serialize credential
  (JWSDetached.sign_detached canonical_bytes private_key "RS256" kid created_at,
   credential)

/-- v3 `verify_credential` (lines 341-356): recompute the canonical bytes and
delegate to `verify_detached`. -/
def verify_credential (credential : Json)
    (signature_container : List (String × String)) (public_key : SigScheme) : Bool :=
  JWSDetached.verify_detached (CanonicalJSON.serialize credential)
    signature_container public_key

/-- v3 `check_revocation` (lines 358-366): read `revocationPointer`; if falsy
return `False`; otherwise print a note (no fetch is performed) and return
`False`. -/
def check_revocation (credential : Json) : Bool :=
  match credential.get? "revocationPointer" with
  | none => false
  | some revocation_url => if pyFalsy revocation_url then false else false

end ContentOriginCredential

/-! ## v2 `ContentOriginCredential.create_credential`
(`credential_system_v2.py`, lines 289-355) -/

namespace V2

/-- v2 `create_credential`.  `credentialId` stands for the `uuid.uuid4()`
draw and `now` for the RFC3339-formatted `datetime.now(timezone.utc)`;
`version` is `self.version` (default `"2.0.0"`).  Raises `ValueError` for an
invalid DID; otherwise builds the credential dict in insertion order, filling
`revocationPointer` with the default derived from the credential id whenever
the caller-supplied pointer is falsy (`None` or empty). -/
def create_credential (version credentialId now : String)
    (content_type : String) (fingerprint_bundle : Json)
    (creator_did creator_type : String)
    (content_metadata : List (String × Json))
    (revocation_pointer : Option String := none)
    (ai_generation_details : Option Json := none)
    (rights : Option Json := none)
    (chain_of_custody : Option Json := none) : Except String Json :=
  if !(DIDManager.validate_did_v1 creator_did) then
    Except.error ("Invalid DID: " ++ creator_did)
  else
    let base : List (String × Json) :=
      [("credentialId", .str credentialId),
       ("version", .str version),
       ("contentType", .str content_type),
       ("fingerprintBundle", fingerprint_bundle),
       ("creator", .obj [("did", .str creator_did), ("type", .str creator_type)]),
       ("timestamp", .obj
         [("created", (content_metadata.lookup "created_timestamp").getD (.str now)),
          ("credentialIssued", .str now)]),
       ("contentMetadata", .obj content_metadata)]
    let rev : String :=
      match revocation_pointer with
      | some rp =>
          if rp.data.isEmpty then "https://revocation.example.com/v1/" ++ credentialId
          else rp
      | none => "https://revocation.example.com/v1/" ++ credentialId
    let withRev := base ++ [("revocationPointer", .str rev)]
    let withAI := withRev ++ (match ai_generation_details with
      | some j => if pyFalsy j then [] else [("aiGenerationDetails", j)]
      | none => [])
    let withRights := withAI ++ (match rights with
      | some j => if pyFalsy j then [] else [("rights", j)]
      | none => [])
    let withCustody := withRights ++ (match chain_of_custody with
      | some j => if pyFalsy j then [] else [("chainOfCustody", j)]
      | none => [])
    Except.ok (.obj withCustody)

end V2

/-! ## v1 `ContentOriginCredential.sign_credential`
(`credential_system.py`, lines 227-265) -/

namespace V1

/-- v1 `sign_credential`: serialize `self.credential` with
`json.dumps(..., sort_keys=True)` (default separators), sign it, build the
`verification` dict — including the standard-base64 signature and the public
key PEM — and write it back into the credential
(`self.credential["verification"] = verification`).  The result pair is
(verification dict, credential state after the call). -/
def sign_credential (private_key : SigScheme) (credential : List (String × Json))
    (public_pem : String) : Json × List (String × Json) :=
  let credential_bytes := dumpsSortedDefault (.obj credential)
  let signature := private_key.sign credential_bytes
  let credentialId :=
    match credential.lookup "credentialId" with
    | some (.str s) => s
    | _ => ""
  let verification : Json := .obj
    [("method", .str "digital-signature"),
     ("signature", .str (b64stdEncode signature)),
     ("publicKey", .str public_pem),
     ("verificationUrl", .str ("https://verify.example.com/credentials/" ++ credentialId))]
  (verification, credential ++ [("verification", verification)])

end V1

/-! ## A concrete signature scheme for witnesses

`demoScheme` signs a message by an injective, prefix-free byte encoding and
verifies by re-encoding and comparing; it satisfies the correctness and
unforgeability hypotheses that the abstract theorems take. -/

/-- Little-endian base-255 digits, fuel-driven so that the kernel can
evaluate it (the fuel is the number itself, always enough). -/
def digitsGo : Nat → Nat → List Nat
  | _, 0 => []
  | 0, _ => []
  | fuel + 1, n + 1 => ((n + 1) % 255) :: digitsGo fuel ((n + 1) / 255)

/-- Little-endian base-255 digits of a number. -/
def digits255 (n : Nat) : List Nat := digitsGo n n

/-- Value of a little-endian base-255 digit list. -/
def unDigits255 : List Nat → Nat
  | [] => 0
  | d :: ds => d + 255 * unDigits255 ds

/-- Injective prefix-free encoding of a message into bytes `< 256`:
each entry becomes its base-255 digits followed by a `255` terminator. -/
def byteEnc (m : List Nat) : List Nat :=
  (m.map (fun n => digits255 n ++ [255])).flatten

/-- The concrete scheme used by witnesses. -/
def demoScheme : SigScheme :=
  { sign := byteEnc, verify := fun s m => s == byteEnc m }


/-! ## Mutation and semantic-equality notions used by the claims -/

/-- Flip bit `k` of the byte at index `i` of a byte string. -/
def flipBit (bs : List Nat) (i k : Nat) : List Nat :=
  bs.set i (bs.getD i 0 ^^^ (1 <<< k))

mutual

/-- Semantic equality of JSON records in the sense of the canonicalization
contract: equal atoms, pointwise equal sequences, and object member lists
that agree up to recursively equal values followed by a reordering of the
members. -/
inductive SemEq : Json → Json → Prop where
  | str (s : String) : SemEq (.str s) (.str s)
  | num (n : Int) : SemEq (.num n) (.num n)
  | bool (b : Bool) : SemEq (.bool b) (.bool b)
  | null : SemEq .null .null
  | arr (xs ys : List Json) : SemEqList xs ys → SemEq (.arr xs) (.arr ys)
  | obj (kvs mid kvs2 : List (String × Json)) :
      SemEqPairs kvs mid → mid.Perm kvs2 → SemEq (.obj kvs) (.obj kvs2)

/-- Pointwise semantic equality of sequences. -/
inductive SemEqList : List Json → List Json → Prop where
  | nil : SemEqList [] []
  | cons (x y : Json) (xs ys : List Json) :
      SemEq x y → SemEqList xs ys → SemEqList (x :: xs) (y :: ys)

/-- Pointwise semantic equality of object members: same keys in the same
order, recursively equal values. -/
inductive SemEqPairs : List (String × Json) → List (String × Json) → Prop where
  | nil : SemEqPairs [] []
  | cons (k : String) (v w : Json) (l l2 : List (String × Json)) :
      SemEq v w → SemEqPairs l l2 → SemEqPairs ((k, v) :: l) ((k, w) :: l2)

end

/-- No duplicated keys in a list of strings. -/
def distinctKeys : List String → Bool
  | [] => true
  | k :: rest => !(rest.contains k) && distinctKeys rest

mutual

/-- Every object nested in the record has pairwise distinct keys (any dict
Python can build satisfies this). -/
def nodupDeep : Json → Bool
  | .str _ => true
  | .num _ => true
  | .bool _ => true
  | .null => true
  | .arr xs => nodupDeepList xs
  | .obj kvs => distinctKeys (kvs.map Prod.fst) && nodupDeepPairs kvs
termination_by structural j => j

/-- The check `nodupDeep` over a sequence. -/
def nodupDeepList : List Json → Bool
  | [] => true
  | x :: rest => nodupDeep x && nodupDeepList rest
termination_by structural l => l

/-- The check `nodupDeep` over object members. -/
def nodupDeepPairs : List (String × Json) → Bool
  | [] => true
  | (_, v) :: rest => nodupDeep v && nodupDeepPairs rest
termination_by structural l => l

end

/-- JSON insignificant-whitespace characters. -/
def isJsonWs (c : Char) : Bool := c == ' ' || c == '\t' || c == '\n' || c == '\r'

mutual

/-- No raw space character inside any string atom or object key of the
record (tabs, newlines and control characters are escaped by the serializer,
so the space is the only whitespace that could survive into the output). -/
def noSpaceStrings : Json → Bool
  | .str s => s.data.all (fun c => c != ' ')
  | .num _ => true
  | .bool _ => true
  | .null => true
  | .arr xs => noSpaceList xs
  | .obj kvs => noSpacePairs kvs
termination_by structural j => j

/-- The check `noSpaceStrings` over a sequence. -/
def noSpaceList : List Json → Bool
  | [] => true
  | x :: rest => noSpaceStrings x && noSpaceList rest
termination_by structural l => l

/-- The check `noSpaceStrings` over object members, keys included. -/
def noSpacePairs : List (String × Json) → Bool
  | [] => true
  | (k, v) :: rest => k.data.all (fun c => c != ' ') && noSpaceStrings v && noSpacePairs rest
termination_by structural l => l

end

/-- Both ends (if any) of a byte string are non-whitespace. -/
def wsTrimmed (u : List Nat) : Bool :=
  (match u.head? with
   | none => true
   | some b => !isWSByte b) &&
  (match u.getLast? with
   | none => true
   | some b => !isWSByte b)

/-- Records that `t1` and `t2` differ only in leading/trailing ASCII whitespace and in
letter case: each is a whitespace-padded copy of a trimmed core, and the two
cores agree after case folding. -/
def CaseWsVariant (t1 t2 : List Nat) : Prop :=
  ∃ u1 u2 w1 w2 w3 w4 : List Nat,
    t1 = w1 ++ u1 ++ w2 ∧ t2 = w3 ++ u2 ++ w4 ∧
    (∀ b ∈ w1, isWSByte b = true) ∧ (∀ b ∈ w2, isWSByte b = true) ∧
    (∀ b ∈ w3, isWSByte b = true) ∧ (∀ b ∈ w4, isWSByte b = true) ∧
    wsTrimmed u1 = true ∧ wsTrimmed u2 = true ∧ bytesLower u1 = bytesLower u2


/-! ## The spec's running scenario (§8): `b"hello world"`, `text/plain`,
creator `did:key:zAAA`, with a `contentMetadata.title` mutation -/

/-- The scenario credential record, with the nondeterministic inputs
(credential id, timestamps) fixed. -/
def scenarioCredential : Json :=
  .obj [("credentialId", .str "c-001"),
        ("version", .str "3.0.0"),
        ("mediaType", .str "text/plain"),
        ("fingerprintBundle", FingerprintBundle.create_for_text (utf8Encode "hello world") true),
        ("creator", .obj [("did", .str "did:key:zAAA"), ("type", .str "human")]),
        ("timestamp", .obj [("created", .str "2025-10-24T14:30:00Z"),
                            ("issued", .str "2025-10-24T14:30:00Z")]),
        ("contentMetadata", .obj [("title", .str "Hello"), ("language", .str "en")]),
        ("revocationPointer", .str "https://revocation.example.com/v1/c-001")]

/-- The scenario credential after mutating `contentMetadata.title`. -/
def scenarioCredentialMutated : Json :=
  .obj [("credentialId", .str "c-001"),
        ("version", .str "3.0.0"),
        ("mediaType", .str "text/plain"),
        ("fingerprintBundle", FingerprintBundle.create_for_text (utf8Encode "hello world") true),
        ("creator", .obj [("did", .str "did:key:zAAA"), ("type", .str "human")]),
        ("timestamp", .obj [("created", .str "2025-10-24T14:30:00Z"),
                            ("issued", .str "2025-10-24T14:30:00Z")]),
        ("contentMetadata", .obj [("title", .str "Tampered"), ("language", .str "en")]),
        ("revocationPointer", .str "https://revocation.example.com/v1/c-001")]

/-! ## Support lemmas: the code-point key order -/

theorem charToNatInj {c d : Char} (h : c.toNat = d.toNat) : c = d :=
  Char.eq_of_val_eq (UInt32.ext h)

theorem strLtChars_asymm : ∀ {a b : List Char},
    strLtChars a b = true → strLtChars b a = false := by
  intro a
  induction a with
  | nil => intro b h; cases b <;> simp_all [strLtChars]
  | cons c cs ih =>
      intro b h
      cases b with
      | nil => simp [strLtChars] at h
      | cons d ds =>
          rcases Nat.lt_trichotomy c.toNat d.toNat with hlt | heq | hgt
          · simp [strLtChars, hlt, Nat.lt_asymm hlt]
          · cases charToNatInj heq
            simp only [strLtChars, Nat.lt_irrefl, if_neg (Nat.lt_irrefl _),
              if_false] at h ⊢
            exact ih h
          · simp [strLtChars, hgt, Nat.lt_asymm hgt] at h

theorem strLtChars_eq_of_not : ∀ {a b : List Char},
    strLtChars a b = false → strLtChars b a = false → a = b := by
  intro a
  induction a with
  | nil => intro b h1 _; cases b <;> simp_all [strLtChars]
  | cons c cs ih =>
      intro b h1 h2
      cases b with
      | nil => simp [strLtChars] at h2
      | cons d ds =>
          rcases Nat.lt_trichotomy c.toNat d.toNat with hlt | heq | hgt
          · simp [strLtChars, hlt] at h1
          · cases charToNatInj heq
            simp only [strLtChars, Nat.lt_irrefl, if_neg (Nat.lt_irrefl _),
              if_false] at h1 h2
            simp [ih h1 h2]
          · simp [strLtChars, hgt, Nat.lt_asymm hgt] at h2

theorem strLtChars_trans : ∀ {a b c : List Char},
    strLtChars a b = true → strLtChars b c = true → strLtChars a c = true := by
  intro a
  induction a with
  | nil =>
      intro b c h1 h2
      cases b with
      | nil => simp [strLtChars] at h1
      | cons d ds =>
          cases c with
          | nil => simp [strLtChars] at h2
          | cons e es => simp [strLtChars]
  | cons x xs ih =>
      intro b c h1 h2
      cases b with
      | nil => simp [strLtChars] at h1
      | cons d ds =>
          cases c with
          | nil => simp [strLtChars] at h2
          | cons e es =>
              rcases Nat.lt_trichotomy x.toNat d.toNat with hlt | heq | hgt
              · rcases Nat.lt_trichotomy d.toNat e.toNat with hlt2 | heq2 | hgt2
                · simp [strLtChars, Nat.lt_trans hlt hlt2]
                · cases charToNatInj heq2; simp [strLtChars, hlt]
                · simp [strLtChars, hgt2, Nat.lt_asymm hgt2] at h2
              · cases charToNatInj heq
                simp only [strLtChars, Nat.lt_irrefl, if_neg (Nat.lt_irrefl _),
                  if_false] at h1
                rcases Nat.lt_trichotomy x.toNat e.toNat with hlt2 | heq2 | hgt2
                · simp [strLtChars, hlt2]
                · cases charToNatInj heq2
                  simp only [strLtChars, Nat.lt_irrefl, if_neg (Nat.lt_irrefl _),
                    if_false] at h2 ⊢
                  exact ih h1 h2
                · simp [strLtChars, hgt2, Nat.lt_asymm hgt2] at h2
              · simp [strLtChars, hgt, Nat.lt_asymm hgt] at h1

theorem keyLE_total : IsTotal (String × String) keyLE := by
  constructor
  intro p q
  by_cases h : strLtChars q.1.data p.1.data = true
  · exact Or.inr (by simp [keyLE, strLeb, strLtChars_asymm h])
  · exact Or.inl (by simp [keyLE, strLeb]; simpa using h)

theorem keyLE_trans : IsTrans (String × String) keyLE := by
  constructor
  intro p q r h1 h2
  simp only [keyLE, strLeb, Bool.not_eq_true'] at h1 h2 ⊢
  by_cases hqp : strLtChars q.1.data p.1.data = true
  · exact absurd h1 (by simp [hqp])
  · by_cases hrq : strLtChars r.1.data q.1.data = true
    · exact absurd h2 (by simp [hrq])
    · simp only [Bool.not_eq_true] at hqp hrq
      by_contra hrp
      simp only [Bool.not_eq_false] at hrp
      by_cases hpq : strLtChars p.1.data q.1.data = true
      · exact absurd (strLtChars_trans hrp hpq) (by simp [hrq])
      · have : p.1.data = q.1.data := strLtChars_eq_of_not (by simpa using hpq) hqp
        rw [this] at hrp
        exact absurd hrp (by simp [hrq])

/-! ## Support lemmas: base64url round-trip and injectivity -/

theorem b64val_url_char : ∀ n, n < 64 →
    b64val b64urlAlphabet (b64char b64urlAlphabet n) = n := by decide

theorem b64char_url_ascii (n : Nat) : (b64char b64urlAlphabet n).toNat < 128 := by
  by_cases h : n < 64
  · revert h
    have : ∀ m, m < 64 → (b64char b64urlAlphabet m).toNat < 128 := by decide
    exact this n
  · have hlen : b64urlAlphabet.length ≤ n := by
      have : b64urlAlphabet.length = 64 := by decide
      omega
    rw [b64char, List.getD_eq_default _ _ hlen]
    decide

theorem b64encodeChars_url_ascii : ∀ (bs : List Nat) (c : Char),
    c ∈ b64encodeChars b64urlAlphabet bs → c.toNat < 128
  | [], c => by simp [b64encodeChars]
  | [a], c => by
      simp only [b64encodeChars, List.mem_cons, List.not_mem_nil, or_false]
      rintro (rfl | rfl) <;> exact b64char_url_ascii _
  | [a, b], c => by
      simp only [b64encodeChars, List.mem_cons, List.not_mem_nil, or_false]
      rintro (rfl | rfl | rfl) <;> exact b64char_url_ascii _
  | a :: b :: d :: rest, c => by
      simp only [b64encodeChars, List.mem_cons]
      rintro (rfl | rfl | rfl | rfl | hm)
      · exact b64char_url_ascii _
      · exact b64char_url_ascii _
      · exact b64char_url_ascii _
      · exact b64char_url_ascii _
      · exact b64encodeChars_url_ascii rest c hm

theorem b64url_roundtrip : ∀ (bs : List Nat), (∀ b ∈ bs, b < 256) →
    b64decodeChars b64urlAlphabet (b64encodeChars b64urlAlphabet bs) = bs
  | [], _ => rfl
  | [a], h => by
      have ha : a < 256 := h a (by simp)
      simp only [b64encodeChars, b64decodeChars]
      rw [b64val_url_char _ (by omega), b64val_url_char _ (by omega)]
      congr 1
      omega
  | [a, b], h => by
      have ha : a < 256 := h a (by simp)
      have hb : b < 256 := h b (by simp)
      simp only [b64encodeChars, b64decodeChars]
      rw [b64val_url_char _ (by omega), b64val_url_char _ (by omega),
        b64val_url_char _ (by omega)]
      congr 1
      · omega
      · congr 1
        omega
  | a :: b :: d :: rest, h => by
      have ha : a < 256 := h a (by simp)
      have hb : b < 256 := h b (by simp)
      have hd : d < 256 := h d (by simp)
      have ih := b64url_roundtrip rest (fun x hx => h x (by simp [hx]))
      simp only [b64encodeChars, b64decodeChars]
      rw [b64val_url_char _ (by omega), b64val_url_char _ (by omega),
        b64val_url_char _ (by omega), b64val_url_char _ (by omega)]
      rw [ih]
      congr 1
      · omega
      · congr 1
        · omega
        · congr 1
          omega

theorem b64encodeChars_url_inj {bs1 bs2 : List Nat}
    (h1 : ∀ b ∈ bs1, b < 256) (h2 : ∀ b ∈ bs2, b < 256)
    (he : b64encodeChars b64urlAlphabet bs1 = b64encodeChars b64urlAlphabet bs2) :
    bs1 = bs2 := by
  rw [← b64url_roundtrip bs1 h1, ← b64url_roundtrip bs2 h2, he]

/-! ## Support lemmas: UTF-8 -/

theorem char_toNat_lt (c : Char) : c.toNat < 1114112 := by
  have h := c.valid
  rcases h with h | ⟨_, h2⟩
  · exact Nat.lt_trans h (by decide)
  · exact h2

theorem utf8Char_lt (c : Char) : ∀ b ∈ utf8Char c, b < 256 := by
  intro b hb
  have hc := char_toNat_lt c
  simp only [utf8Char] at hb
  split at hb
  · simp at hb; omega
  · split at hb
    · simp at hb; rcases hb with rfl | rfl <;> omega
    · split at hb
      · simp at hb; rcases hb with rfl | rfl | rfl <;> omega
      · simp at hb; rcases hb with rfl | rfl | rfl | rfl <;> omega

theorem utf8EncodeList_lt (cs : List Char) : ∀ b ∈ utf8EncodeList cs, b < 256 := by
  intro b hb
  simp only [utf8EncodeList, List.mem_flatten, List.mem_map] at hb
  obtain ⟨l, ⟨c, _, rfl⟩, hbl⟩ := hb
  exact utf8Char_lt c b hbl

theorem utf8Encode_lt (s : String) : ∀ b ∈ utf8Encode s, b < 256 :=
  utf8EncodeList_lt s.data

theorem utf8Char_ascii {c : Char} (h : c.toNat < 128) : utf8Char c = [c.toNat] := by
  simp [utf8Char, h]

theorem utf8EncodeList_ascii : ∀ {cs : List Char}, (∀ c ∈ cs, c.toNat < 128) →
    utf8EncodeList cs = cs.map Char.toNat := by
  intro cs
  induction cs with
  | nil => intro _; rfl
  | cons c rest ih =>
      intro h
      simp only [utf8EncodeList, List.map_cons, List.flatten_cons] at *
      rw [utf8Char_ascii (h c (by simp)), ih (fun x hx => h x (by simp [hx]))]
      rfl

theorem charToNat_injective : Function.Injective Char.toNat :=
  fun _ _ h => charToNatInj h

theorem utf8EncodeList_inj_ascii {cs1 cs2 : List Char}
    (h1 : ∀ c ∈ cs1, c.toNat < 128) (h2 : ∀ c ∈ cs2, c.toNat < 128)
    (he : utf8EncodeList cs1 = utf8EncodeList cs2) : cs1 = cs2 := by
  rw [utf8EncodeList_ascii h1, utf8EncodeList_ascii h2] at he
  exact List.map_injective_iff.mpr charToNat_injective he

/-! ## Support lemmas: the concrete witness scheme -/

theorem digitsGo_lt : ∀ (fuel n : Nat), ∀ d ∈ digitsGo fuel n, d < 255 := by
  intro fuel
  induction fuel with
  | zero => intro n d hd; cases n <;> simp [digitsGo] at hd
  | succ fuel ih =>
      intro n d hd
      cases n with
      | zero => simp [digitsGo] at hd
      | succ m =>
          simp only [digitsGo, List.mem_cons] at hd
          rcases hd with rfl | hd
          · exact Nat.mod_lt _ (by omega)
          · exact ih _ d hd

theorem digitsGo_spec : ∀ (fuel n : Nat), n ≤ fuel →
    unDigits255 (digitsGo fuel n) = n := by
  intro fuel
  induction fuel with
  | zero => intro n h; interval_cases n; rfl
  | succ fuel ih =>
      intro n h
      cases n with
      | zero => rfl
      | succ m =>
          have hdiv : (m + 1) / 255 ≤ fuel := by
            have := Nat.div_le_self (m + 1) 255
            have := Nat.div_lt_self (by omega : 0 < m + 1) (by omega : 1 < 255)
            omega
          simp only [digitsGo, unDigits255, ih _ hdiv]
          omega

theorem digits255_spec (n : Nat) : unDigits255 (digits255 n) = n :=
  digitsGo_spec n n (le_refl n)

theorem digits255_ne (n : Nat) : ∀ d ∈ digits255 n, d ≠ 255 := by
  intro d hd
  have := digitsGo_lt n n d hd
  omega

theorem splitAtTerm : ∀ {l1 l2 r1 r2 : List Nat},
    (∀ x ∈ l1, x ≠ 255) → (∀ x ∈ l2, x ≠ 255) →
    l1 ++ 255 :: r1 = l2 ++ 255 :: r2 → l1 = l2 ∧ r1 = r2 := by
  intro l1
  induction l1 with
  | nil =>
      intro l2 r1 r2 _ h2 he
      cases l2 with
      | nil => simpa using he
      | cons y ys =>
          simp only [List.nil_append, List.cons_append, List.cons.injEq] at he
          exact absurd he.1.symm (h2 y (by simp))
  | cons x xs ih =>
      intro l2 r1 r2 h1 h2 he
      cases l2 with
      | nil =>
          simp only [List.nil_append, List.cons_append, List.cons.injEq] at he
          exact absurd he.1 (h1 x (by simp))
      | cons y ys =>
          simp only [List.cons_append, List.cons.injEq] at he
          obtain ⟨rfl, he2⟩ := he
          obtain ⟨h3, h4⟩ := ih (fun a ha => h1 a (by simp [ha]))
            (fun a ha => h2 a (by simp [ha])) he2
          exact ⟨by rw [h3], h4⟩

theorem byteEnc_cons (n : Nat) (m : List Nat) :
    byteEnc (n :: m) = digits255 n ++ 255 :: byteEnc m := by
  simp [byteEnc]

theorem byteEnc_inj : ∀ {m1 m2 : List Nat}, byteEnc m1 = byteEnc m2 → m1 = m2 := by
  intro m1
  induction m1 with
  | nil =>
      intro m2 he
      cases m2 with
      | nil => rfl
      | cons y ys =>
          rw [byteEnc_cons] at he
          exact absurd he.symm (by simp [byteEnc])
  | cons x xs ih =>
      intro m2 he
      cases m2 with
      | nil =>
          rw [byteEnc_cons] at he
          exact absurd he (by simp [byteEnc])
      | cons y ys =>
          rw [byteEnc_cons, byteEnc_cons] at he
          obtain ⟨hd, htl⟩ := splitAtTerm (digits255_ne x) (digits255_ne y) he
          have hx : x = y := by
            have h1 := digits255_spec x
            have h2 := digits255_spec y
            rw [hd] at h1
            omega
          rw [hx, ih htl]

theorem byteEnc_lt (m : List Nat) : ∀ b ∈ byteEnc m, b < 256 := by
  intro b hb
  simp only [byteEnc, List.mem_flatten, List.mem_map] at hb
  obtain ⟨l, ⟨n, _, rfl⟩, hbl⟩ := hb
  rcases List.mem_append.mp hbl with h | h
  · exact Nat.lt_of_lt_of_le (digitsGo_lt _ _ _ h) (by omega)
  · simp at h
    omega

theorem demoScheme_correct (m : List Nat) :
    demoScheme.verify (demoScheme.sign m) m = true := by
  simp [demoScheme]

theorem demoScheme_sound (m m' : List Nat) (h : m ≠ m') :
    demoScheme.verify (demoScheme.sign m) m' = false := by
  simp only [demoScheme]
  rw [beq_eq_false_iff_ne]
  exact fun he => h (byteEnc_inj he)

theorem demoScheme_sign_lt (m : List Nat) : ∀ b ∈ demoScheme.sign m, b < 256 :=
  byteEnc_lt m

/-! ## Support lemmas: detached JWS -/

theorem signingInput_chars (p : List Nat) (alg kid created : String) :
    JWSDetached.signingInput p alg kid created =
      utf8EncodeList
        ((b64encodeChars b64urlAlphabet
            (CanonicalJSON.serialize (JWSDetached.create_jws_header alg kid created))
          ++ ['.']) ++ b64encodeChars b64urlAlphabet p) := rfl

theorem signingInput_inj (alg kid created : String) {p1 p2 : List Nat}
    (h1 : ∀ b ∈ p1, b < 256) (h2 : ∀ b ∈ p2, b < 256)
    (he : JWSDetached.signingInput p1 alg kid created =
          JWSDetached.signingInput p2 alg kid created) : p1 = p2 := by
  rw [signingInput_chars, signingInput_chars] at he
  have hascii : ∀ (p : List Nat) (c : Char),
      c ∈ (b64encodeChars b64urlAlphabet
            (CanonicalJSON.serialize (JWSDetached.create_jws_header alg kid created))
          ++ ['.']) ++ b64encodeChars b64urlAlphabet p → c.toNat < 128 := by
    intro p c hc
    rcases List.mem_append.mp hc with hc | hc
    · rcases List.mem_append.mp hc with hc | hc
      · exact b64encodeChars_url_ascii _ c hc
      · simp at hc
        subst hc
        decide
    · exact b64encodeChars_url_ascii _ c hc
  have hdata := utf8EncodeList_inj_ascii (hascii p1) (hascii p2) he
  have hb64 := List.append_cancel_left hdata
  exact b64encodeChars_url_inj h1 h2 hb64

theorem verify_body_of_sign (payload p2 : List Nat) (S : SigScheme)
    (alg kid created : String) (hbytes : ∀ m, ∀ b ∈ S.sign m, b < 256) :
    JWSDetached.verify_detached_body p2
        (JWSDetached.sign_detached payload S alg kid created) S =
      (if S.verify (S.sign (JWSDetached.signingInput payload alg kid created))
            (JWSDetached.signingInput p2 alg kid created)
       then Except.ok true else Except.error "InvalidSignature") := by
  show (do
    let a ← JWSDetached.keyLookup (JWSDetached.sign_detached payload S alg kid created) "alg"
    let k ← JWSDetached.keyLookup (JWSDetached.sign_detached payload S alg kid created) "kid"
    let c ← JWSDetached.keyLookup (JWSDetached.sign_detached payload S alg kid created) "created"
    let sb ← JWSDetached.keyLookup (JWSDetached.sign_detached payload S alg kid created) "signature"
    let signature := b64urlDecode sb
    if S.verify signature (JWSDetached.signingInput p2 a k c) then
      pure true
    else
      Except.error "InvalidSignature" : Except String Bool) = _
  have ha : JWSDetached.keyLookup
      (JWSDetached.sign_detached payload S alg kid created) "alg" = Except.ok alg := rfl
  have hk : JWSDetached.keyLookup
      (JWSDetached.sign_detached payload S alg kid created) "kid" = Except.ok kid := rfl
  have hc : JWSDetached.keyLookup
      (JWSDetached.sign_detached payload S alg kid created) "created" = Except.ok created := rfl
  have hs : JWSDetached.keyLookup
      (JWSDetached.sign_detached payload S alg kid created) "signature" =
      Except.ok (b64urlEncodeNoPad
        (S.sign (JWSDetached.signingInput payload alg kid created))) := rfl
  rw [ha, hk, hc, hs]
  show (if S.verify (b64urlDecode (b64urlEncodeNoPad
      (S.sign (JWSDetached.signingInput payload alg kid created))))
      (JWSDetached.signingInput p2 alg kid created) then
        (Except.ok true : Except String Bool)
      else Except.error "InvalidSignature") = _
  have hdec : b64urlDecode (b64urlEncodeNoPad
      (S.sign (JWSDetached.signingInput payload alg kid created))) =
      S.sign (JWSDetached.signingInput payload alg kid created) :=
    b64url_roundtrip _ (hbytes _)
  rw [hdec]

/-! ## Support lemmas: single-bit mutations -/

theorem xor_shift_ne (x k : Nat) : x ^^^ (1 <<< k) ≠ x := by
  intro h
  have h2 : x ^^^ (x ^^^ (1 <<< k)) = x ^^^ x := by rw [h]
  rw [← Nat.xor_assoc, Nat.xor_self, Nat.zero_xor] at h2
  have hpos : 0 < 1 <<< k := by
    rw [Nat.shiftLeft_eq]
    simpa using Nat.pow_pos (by omega : 0 < 2) k
  omega

theorem getD_set_self (l : List Nat) (i v : Nat) (h : i < l.length) :
    (l.set i v).getD i 0 = v := by
  rw [List.getD_eq_getElem?_getD, List.getElem?_set_self]
  · rfl
  · simpa using h

theorem flipBit_ne (bs : List Nat) (i k : Nat) (hi : i < bs.length) :
    flipBit bs i k ≠ bs := by
  intro h
  have hg := congrArg (fun l => l.getD i 0) h
  simp only [flipBit] at hg
  rw [getD_set_self bs i _ hi] at hg
  exact xor_shift_ne (bs.getD i 0) k hg

theorem flipBit_lt (bs : List Nat) (i k : Nat)
    (hb : ∀ b ∈ bs, b < 256) (hk : k < 8) : ∀ b ∈ flipBit bs i k, b < 256 := by
  intro b hm
  rcases List.mem_or_eq_of_mem_set hm with h | rfl
  · exact hb b h
  · have hx : bs.getD i 0 < 256 := by
      by_cases hi : i < bs.length
      · apply hb
        rw [List.getD_eq_getElem?_getD, List.getElem?_eq_getElem hi]
        exact List.getElem_mem hi
      · rw [List.getD_eq_getElem?_getD, List.getElem?_eq_none (by omega)]
        decide
    have hs : 1 <<< k < 256 := by
      rw [Nat.shiftLeft_eq]
      have : (2:Nat) ^ k ≤ 2 ^ 7 := Nat.pow_le_pow_right (by omega) (by omega)
      omega
    have := Nat.xor_lt_two_pow (x := bs.getD i 0) (y := 1 <<< k) (n := 8)
      (by omega) (by omega)
    omega

/-- C1.  Sign-then-verify round-trip: for any signature scheme satisfying the
asymmetric-primitive contract (correctness, unforgeability, byte-valued
signatures), signing the canonical encoding of any credential record and
verifying the resulting container against the same encoding returns `true`;
verifying the same container against any distinct payload — in particular
any single-bit mutation of the signed payload — returns `false`. -/
theorem C1_sign_then_verify (S : SigScheme)
    (hcorrect : ∀ m, S.verify (S.sign m) m = true)
    (hsound : ∀ m m2, m ≠ m2 → S.verify (S.sign m) m2 = false)
    (hbytes : ∀ m, ∀ b ∈ S.sign m, b < 256)
    (credential : Json) (algorithm key_id created_at : String) :
    JWSDetached.verify_detached (CanonicalJSON.serialize credential)
      (JWSDetached.sign_detached (CanonicalJSON.serialize credential)
        S algorithm key_id created_at) S = true
  ∧ (∀ mutated : List Nat, (∀ b ∈ mutated, b < 256) →
      mutated ≠ CanonicalJSON.serialize credential →
      JWSDetached.verify_detached mutated
        (JWSDetached.sign_detached (CanonicalJSON.serialize credential)
          S algorithm key_id created_at) S = false)
  ∧ (∀ i k : Nat, i < (CanonicalJSON.serialize credential).length → k < 8 →
      JWSDetached.verify_detached
        (flipBit (CanonicalJSON.serialize credential) i k)
        (JWSDetached.sign_detached (CanonicalJSON.serialize credential)
          S algorithm key_id created_at) S = false) := by
  have hser : ∀ b ∈ CanonicalJSON.serialize credential, b < 256 :=
    utf8Encode_lt _
  have hfail : ∀ mutated : List Nat, (∀ b ∈ mutated, b < 256) →
      mutated ≠ CanonicalJSON.serialize credential →
      JWSDetached.verify_detached mutated
        (JWSDetached.sign_detached (CanonicalJSON.serialize credential)
          S algorithm key_id created_at) S = false := by
    intro mutated hm hne
    have hsi : JWSDetached.signingInput (CanonicalJSON.serialize credential)
        algorithm key_id created_at ≠
        JWSDetached.signingInput mutated algorithm key_id created_at := by
      intro h
      exact hne (signingInput_inj algorithm key_id created_at hser hm h).symm
    unfold JWSDetached.verify_detached
    rw [verify_body_of_sign _ _ _ _ _ _ hbytes,
      if_neg (by rw [hsound _ _ hsi]; simp)]
  refine ⟨?_, hfail, ?_⟩
  · unfold JWSDetached.verify_detached
    rw [verify_body_of_sign _ _ _ _ _ _ hbytes, if_pos (hcorrect _)]
  · intro i k hi hk
    exact hfail _ (flipBit_lt _ i k hser hk) (flipBit_ne _ i k hi)

/-- Witness for C1: the spec's §8 scenario run with the concrete
`demoScheme` — sign the `b"hello world"` / `text/plain` / `did:key:zAAA`
credential, verify it (`true`), then verify the container against the
credential with a mutated `contentMetadata.title` (`false`). -/
theorem C1_sign_then_verify_witness :
    JWSDetached.verify_detached (CanonicalJSON.serialize scenarioCredential)
      (JWSDetached.sign_detached (CanonicalJSON.serialize scenarioCredential)
        demoScheme "RS256" "did:key:zAAA#key-1" "2025-10-24T14:30:01Z") demoScheme = true
  ∧ JWSDetached.verify_detached (CanonicalJSON.serialize scenarioCredentialMutated)
      (JWSDetached.sign_detached (CanonicalJSON.serialize scenarioCredential)
        demoScheme "RS256" "did:key:zAAA#key-1" "2025-10-24T14:30:01Z") demoScheme = false := by
  have h := C1_sign_then_verify demoScheme demoScheme_correct demoScheme_sound
    demoScheme_sign_lt scenarioCredential "RS256" "did:key:zAAA#key-1"
    "2025-10-24T14:30:01Z"
  exact ⟨h.1, h.2.1 (CanonicalJSON.serialize scenarioCredentialMutated)
    (utf8Encode_lt _) (by decide)⟩

/-- C3 (counterexample).  The claim expects a structurally incomplete
container to produce a distinct malformed-container outcome; in the code the
`KeyError` is swallowed by the blanket `except` and `verify_detached` returns
the very same ordinary `False` as a well-formed container whose cryptographic
check fails: at the concrete payload `[104, 105]`, a container missing `alg`
and a well-formed container carrying a wrong signature produce identical
outcomes. -/
theorem C3_counterexample :
    JWSDetached.verify_detached [104, 105]
      [("kid", "k"), ("created", "t"), ("signature", "AA")] demoScheme = false
  ∧ JWSDetached.verify_detached [104, 105]
      [("type", "JWS-detached"), ("alg", "RS256"), ("kid", "k"), ("created", "t"),
       ("signature", "AA")] demoScheme = false
  ∧ JWSDetached.verify_detached [104, 105]
      [("kid", "k"), ("created", "t"), ("signature", "AA")] demoScheme
    = JWSDetached.verify_detached [104, 105]
      [("type", "JWS-detached"), ("alg", "RS256"), ("kid", "k"), ("created", "t"),
       ("signature", "AA")] demoScheme := by
  refine ⟨by decide, by decide, by decide⟩

/-- C3 (amended).  Verification failures are result values, not exceptions:
for every well-formed container whose cryptographic check fails,
`verify_detached` returns the ordinary value `false` (the `InvalidSignature`
exception is caught inside the function), and for every container missing the
`alg` field it also returns the same ordinary `false` (the `KeyError` is
caught by the same blanket handler), so malformed containers are *not*
reported as a distinct outcome. -/
theorem C3_result_values (S : SigScheme) (payload : List Nat)
    (alg kid created sigb : String) (container : List (String × String))
    (halg : container.lookup "alg" = some alg)
    (hkid : container.lookup "kid" = some kid)
    (hcre : container.lookup "created" = some created)
    (hsig : container.lookup "signature" = some sigb)
    (hfail : S.verify (b64urlDecode sigb)
      (JWSDetached.signingInput payload alg kid created) = false) :
    JWSDetached.verify_detached payload container S = false
  ∧ (∀ c2 : List (String × String), c2.lookup "alg" = none →
      JWSDetached.verify_detached payload c2 S = false) := by
  constructor
  · unfold JWSDetached.verify_detached
    have hbody : JWSDetached.verify_detached_body payload container S =
        Except.error "InvalidSignature" := by
      show (do
        let a ← JWSDetached.keyLookup container "alg"
        let k ← JWSDetached.keyLookup container "kid"
        let c ← JWSDetached.keyLookup container "created"
        let sb ← JWSDetached.keyLookup container "signature"
        let signature := b64urlDecode sb
        if S.verify signature (JWSDetached.signingInput payload a k c) then
          pure true
        else
          Except.error "InvalidSignature" : Except String Bool) = _
      rw [show JWSDetached.keyLookup container "alg" = Except.ok alg by
            rw [JWSDetached.keyLookup, halg],
          show JWSDetached.keyLookup container "kid" = Except.ok kid by
            rw [JWSDetached.keyLookup, hkid],
          show JWSDetached.keyLookup container "created" = Except.ok created by
            rw [JWSDetached.keyLookup, hcre],
          show JWSDetached.keyLookup container "signature" = Except.ok sigb by
            rw [JWSDetached.keyLookup, hsig]]
      show (if S.verify (b64urlDecode sigb)
          (JWSDetached.signingInput payload alg kid created) then
            (Except.ok true : Except String Bool)
          else Except.error "InvalidSignature") = _
      rw [hfail]
      rfl
    rw [hbody]
  · intro c2 hc2
    unfold JWSDetached.verify_detached
    have hbody : JWSDetached.verify_detached_body payload c2 S =
        Except.error "KeyError: alg" := by
      show (do
        let a ← JWSDetached.keyLookup c2 "alg"
        let k ← JWSDetached.keyLookup c2 "kid"
        let c ← JWSDetached.keyLookup c2 "created"
        let sb ← JWSDetached.keyLookup c2 "signature"
        let signature := b64urlDecode sb
        if S.verify signature (JWSDetached.signingInput payload a k c) then
          pure true
        else
          Except.error "InvalidSignature" : Except String Bool) = _
      rw [show JWSDetached.keyLookup c2 "alg" = Except.error "KeyError: alg" by
            rw [JWSDetached.keyLookup, hc2]
            rfl]
      rfl
    rw [hbody]

/-- Witness for C3's amended theorem at a concrete instance: the well-formed
container `{"type", "alg", "kid", "created", "signature"}` with a wrong
signature gives `false`, and the container missing `alg` gives the same
`false`. -/
theorem C3_result_values_witness :
    JWSDetached.verify_detached [104, 105]
      [("type", "JWS-detached"), ("alg", "RS256"), ("kid", "k"), ("created", "t"),
       ("signature", "AA")] demoScheme = false
  ∧ JWSDetached.verify_detached [104, 105]
      [("kid", "k2"), ("created", "t2"), ("signature", "BB")] demoScheme = false := by
  have h := C3_result_values demoScheme [104, 105] "RS256" "k" "t" "AA"
    [("type", "JWS-detached"), ("alg", "RS256"), ("kid", "k"), ("created", "t"),
     ("signature", "AA")]
    (by decide) (by decide) (by decide) (by decide) (by decide)
  exact ⟨h.1, h.2 [("kid", "k2"), ("created", "t2"), ("signature", "BB")] (by decide)⟩

/-- C5 (counterexample).  The claim requires an unreachable revocation
pointer to yield a distinct `Unknown` outcome; `check_revocation` is a
`bool`-returning stub that returns `False` both for a credential carrying a
pointer (which it never dereferences) and for a credential with no pointer at
all — the two outcomes coincide. -/
theorem C5_counterexample :
    ContentOriginCredential.check_revocation
      (.obj [("revocationPointer", .str "https://unreachable.example/feed")]) = false
  ∧ ContentOriginCredential.check_revocation (.obj [("credentialId", .str "c")]) = false
  ∧ ContentOriginCredential.check_revocation
      (.obj [("revocationPointer", .str "https://unreachable.example/feed")])
    = ContentOriginCredential.check_revocation (.obj [("credentialId", .str "c")]) := by
  refine ⟨by decide, by decide, by decide⟩

/-- C5 (amended).  `check_revocation` returns a plain boolean and is
fail-open: it returns `false` on every credential — with a falsy or missing
pointer it takes the early return, and with a present pointer it performs no
dereference and still returns `false`.  No third (`Unknown`) outcome exists. -/
theorem C5_fail_open (credential : Json) :
    ContentOriginCredential.check_revocation credential = false := by
  unfold ContentOriginCredential.check_revocation
  cases Json.get? credential "revocationPointer" with
  | none => rfl
  | some v => by_cases h : pyFalsy v <;> simp [h]

/-- C6 (counterexample).  In `credential_system.py` (v1), `sign_credential`
is *not* detached: it writes the verification block — which contains the
encoded signature — back into the credential
(`self.credential["verification"] = verification`), so the credential is
mutated by signing and embeds the signature container. -/
theorem C6_counterexample :
    (V1.sign_credential demoScheme
      [("contentType", Json.str "article"), ("credentialId", Json.str "c-1")]
      "PEM").2
    ≠ [("contentType", Json.str "article"), ("credentialId", Json.str "c-1")]
  ∧ (V1.sign_credential demoScheme
      [("contentType", Json.str "article"), ("credentialId", Json.str "c-1")]
      "PEM").2.lookup "verification"
    = some (V1.sign_credential demoScheme
      [("contentType", Json.str "article"), ("credentialId", Json.str "c-1")]
      "PEM").1 := by
  refine ⟨fun h => absurd (congrArg (fun l => l.map Prod.fst) h) (by decide), rfl⟩

/-- C6 (amended).  In v3 the signature *is* detached: for every scheme,
credential, DID, key index and timestamp, `sign_credential` emits a container
consisting of exactly the fields `type`, `alg`, `kid`, `created` and
`signature` — the payload enters only through the signature value — and
leaves the credential record itself unchanged; the v1 `sign_credential`
violates this (see the counterexample), embedding the verification block
inside the credential. -/
theorem C6_detached_container (S : SigScheme) (credential : Json)
    (creator_did : String) (key_index : Nat) (created_at : String) :
    (ContentOriginCredential.sign_credential S credential creator_did
      key_index created_at).2 = credential
  ∧ (ContentOriginCredential.sign_credential S credential creator_did
      key_index created_at).1
    = [("type", "JWS-detached"), ("alg", "RS256"),
       ("kid", DIDManager.create_key_id creator_did key_index),
       ("created", created_at),
       ("signature", b64urlEncodeNoPad (S.sign (JWSDetached.signingInput
         (CanonicalJSON.serialize credential) "RS256"
         (DIDManager.create_key_id creator_did key_index) created_at)))]
  ∧ ((ContentOriginCredential.sign_credential S credential creator_did
      key_index created_at).1).map Prod.fst
    = ["type", "alg", "kid", "created", "signature"] :=
  ⟨rfl, rfl, rfl⟩

/-! ## Support lemmas: DID pattern decomposition -/

theorem didMethodRest_decomp (tail : List Char → Bool) :
    ∀ cs : List Char, didMethodRest tail cs = true →
      ∃ m rest : List Char, cs = m ++ ':' :: rest ∧
        (∀ c ∈ m, isLowerOrDigit c = true) ∧ tail rest = true := by
  intro cs
  induction cs with
  | nil => intro h; simp [didMethodRest] at h
  | cons c rest ih =>
      intro h
      simp only [didMethodRest] at h
      by_cases hc : c = ':'
      · refine ⟨[], rest, by simp [hc], by simp, ?_⟩
        rwa [if_pos hc] at h
      · rw [if_neg hc] at h
        by_cases hd : isLowerOrDigit c = true
        · rw [if_pos hd] at h
          obtain ⟨m, r, hcs, hm, ht⟩ := ih h
          refine ⟨c :: m, r, by simp [hcs], ?_, ht⟩
          intro x hx
          rcases List.mem_cons.mp hx with rfl | hx
          · exact hd
          · exact hm x hx
        · rw [if_neg hd] at h
          exact absurd h (by simp)

theorem reTailAnyPlus_ne_nil {cs : List Char} (h : reTailAnyPlus cs = true) :
    cs ≠ [] := by
  intro hnil
  subst hnil
  simp [reTailAnyPlus] at h

/-- C4 (counterexample).  The claim asserts that every accepted identifier
draws its method-specific-id from a safe character class; the v3 validator's
pattern `^did:[a-z0-9]+:.+$` accepts any character there: `did:a:!` is
accepted although `!` lies outside the repository's own safe class
`[a-zA-Z0-9._:%-]` (the class of the v1/v2 validator). -/
theorem C4_counterexample :
    DIDManager.validate_did "did:a:!" = true ∧ didSafeChar '!' = false
  ∧ DIDManager.validate_did_v1 "did:a:!" = false := by
  refine ⟨by decide, by decide, by decide⟩

/-- C4 (amended).  The v3 validator accepts `did:key:zABC123` and
`did:web:example.com:creators:42`, rejects `notadid` and `did::`, rejects
every identifier longer than 512 characters, and every accepted identifier
decomposes as `did:` + nonempty `[a-z0-9]` method token + `:` + nonempty
method-specific-id — but the method-specific-id may contain arbitrary
characters (not restricted to a safe class; see the counterexample). -/
theorem C4_did_validator (d : String) :
    DIDManager.validate_did "did:key:zABC123" = true
  ∧ DIDManager.validate_did "did:web:example.com:creators:42" = true
  ∧ DIDManager.validate_did "notadid" = false
  ∧ DIDManager.validate_did "did::" = false
  ∧ (512 < d.length → DIDManager.validate_did d = false)
  ∧ (DIDManager.validate_did d = true →
      ∃ method rest : List Char,
        d.data = 'd' :: 'i' :: 'd' :: ':' :: (method ++ ':' :: rest) ∧
        method ≠ [] ∧ (∀ c ∈ method, isLowerOrDigit c = true) ∧ rest ≠ []) := by
  refine ⟨by decide, by decide, by decide, by decide, ?_, ?_⟩
  · intro hlen
    unfold DIDManager.validate_did
    have : ¬ (d.length ≤ 512) := by omega
    simp [this]
  · intro hv
    unfold DIDManager.validate_did at hv
    have hpat : didPattern reTailAnyPlus d.data = true := by
      cases hp : didPattern reTailAnyPlus d.data
      · rw [hp] at hv; simp at hv
      · rfl
    unfold didPattern at hpat
    split at hpat
    · next c rest0 heq =>
        rw [Bool.and_eq_true] at hpat
        obtain ⟨m, r, hcs, hm, ht⟩ := didMethodRest_decomp _ _ hpat.2
        refine ⟨c :: m, r, ?_, by simp, ?_, reTailAnyPlus_ne_nil ht⟩
        · rw [heq, hcs]
          rfl
        · intro x hx
          rcases List.mem_cons.mp hx with rfl | hx
          · exact hpat.1
          · exact hm x hx
    · exact absurd hpat (by simp)

/-- Witness for C4's amended theorem: an identifier of 513 characters is
rejected by the length bound, and the acceptance of `did:key:zABC123`
decomposes as the grammar requires. -/
theorem C4_did_validator_witness :
    (512 < (String.mk (List.replicate 513 'a')).length
      ∧ DIDManager.validate_did (String.mk (List.replicate 513 'a')) = false)
  ∧ (DIDManager.validate_did "did:key:zABC123" = true
      ∧ ∃ method rest : List Char,
          "did:key:zABC123".data = 'd' :: 'i' :: 'd' :: ':' :: (method ++ ':' :: rest) ∧
          method ≠ [] ∧ (∀ c ∈ method, isLowerOrDigit c = true) ∧ rest ≠ []) :=
  ⟨⟨by decide, (C4_did_validator (String.mk (List.replicate 513 'a'))).2.2.2.2.1 (by decide)⟩,
   ⟨by decide, (C4_did_validator "did:key:zABC123").2.2.2.2.2 (by decide)⟩⟩

/-- C8.  When the caller supplies no revocation pointer (or a falsy one),
the v2 Credential Assembler fills `revocationPointer` with the deterministic
default `https://revocation.example.com/v1/<credentialId>` derived from the
credential identifier; and every successfully assembled credential carries a
revocation pointer whatever the caller passed.  (In v3, `create_credential`
makes the pointer a required positional argument, so the "caller supplies
none" case cannot arise there.) -/
theorem C8_default_revocation_pointer (version credentialId now content_type : String)
    (fingerprint_bundle : Json) (creator_did creator_type : String)
    (content_metadata : List (String × Json))
    (hdid : DIDManager.validate_did_v1 creator_did = true) :
    (∀ (rp : Option String) (ai ri ch : Option Json) (cred : Json),
      V2.create_credential version credentialId now content_type fingerprint_bundle
        creator_did creator_type content_metadata rp ai ri ch = Except.ok cred →
      cred.get? "revocationPointer" ≠ none)
  ∧ (∀ (ai ri ch : Option Json) (cred : Json),
      V2.create_credential version credentialId now content_type fingerprint_bundle
        creator_did creator_type content_metadata none ai ri ch = Except.ok cred →
      cred.get? "revocationPointer" =
        some (.str ("https://revocation.example.com/v1/" ++ credentialId)))
  ∧ (∀ (rp : Option String) (ai ri ch : Option Json),
      ∃ cred : Json,
        V2.create_credential version credentialId now content_type fingerprint_bundle
          creator_did creator_type content_metadata rp ai ri ch = Except.ok cred) := by
  refine ⟨?_, ?_, ?_⟩
  · intro rp ai ri ch cred hok
    unfold V2.create_credential at hok
    rw [hdid] at hok
    injection hok with h
    subst h
    intro hcontra
    exact Option.noConfusion hcontra
  · intro ai ri ch cred hok
    unfold V2.create_credential at hok
    rw [hdid] at hok
    injection hok with h
    subst h
    rfl
  · intro rp ai ri ch
    unfold V2.create_credential
    rw [hdid]
    exact ⟨_, rfl⟩

/-- Witness for C8 at a concrete instance: with no revocation pointer
supplied, the assembled credential's pointer is the default derived from the
credential id. -/
theorem C8_default_revocation_pointer_witness :
    DIDManager.validate_did_v1 "did:key:zAAA" = true
  ∧ ∃ cred : Json,
      V2.create_credential "2.0.0" "c-42" "2025-10-24T14:30:00Z" "article"
        (.obj []) "did:key:zAAA" "human" [("title", .str "T")]
        none none none none = Except.ok cred := by
  constructor
  · decide
  · obtain ⟨cred, hc⟩ := (C8_default_revocation_pointer "2.0.0" "c-42"
      "2025-10-24T14:30:00Z" "article" (.obj []) "did:key:zAAA" "human"
      [("title", .str "T")] (by decide)).2.2 none none none none
    exact ⟨cred, hc⟩

/-- C10.  The perceptual image digest depends only on the first 1000 bytes:
inputs agreeing on their first 1000 bytes get the identical
`compute_image_phash` string, and hence identical `perceptualHash` fields in
their fingerprint bundles (even when the full contents, and therefore the
`sha256_canonical` digests, differ). -/
theorem C10_phash_head_bytes (b1 b2 : List Nat) (h : b1.take 1000 = b2.take 1000) :
    PerceptualHash.compute_image_phash b1 = PerceptualHash.compute_image_phash b2
  ∧ (FingerprintBundle.create_for_image b1).get? "perceptualHash"
    = (FingerprintBundle.create_for_image b2).get? "perceptualHash" := by
  have hp : PerceptualHash.compute_image_phash b1 =
      PerceptualHash.compute_image_phash b2 := by
    unfold PerceptualHash.compute_image_phash
    rw [h]
  have hg : ∀ b : List Nat, (FingerprintBundle.create_for_image b).get? "perceptualHash"
      = some (.str (PerceptualHash.compute_image_phash b)) := fun _ => rfl
  exact ⟨hp, by rw [hg, hg, hp]⟩

/-- Witness for C10: two 1001-byte inputs that agree on the first 1000 bytes
and differ in the last byte share the perceptual digest. -/
theorem C10_phash_head_bytes_witness :
    (List.replicate 1000 7 ++ [1]).take 1000 = (List.replicate 1000 7 ++ [2]).take 1000
  ∧ PerceptualHash.compute_image_phash (List.replicate 1000 7 ++ [1])
    = PerceptualHash.compute_image_phash (List.replicate 1000 7 ++ [2]) :=
  ⟨by decide, (C10_phash_head_bytes (List.replicate 1000 7 ++ [1])
    (List.replicate 1000 7 ++ [2]) (by decide)).1⟩

/-! ## Support lemmas: video segmentation -/

theorem segmentsGo_length_1M : ∀ (fuel : Nat) (bs : List Nat), bs.length ≤ fuel →
    (segmentsGo 1048576 fuel bs).length = (bs.length + 1048575) / 1048576 := by
  intro fuel
  induction fuel with
  | zero =>
      intro bs h
      cases bs with
      | nil => rfl
      | cons b rest => simp at h
  | succ fuel ih =>
      intro bs h
      cases bs with
      | nil => rfl
      | cons b rest =>
          have hc : (b :: rest).length = rest.length + 1 := rfl
          rw [hc] at h
          have hd : ((b :: rest).drop 1048576).length ≤ fuel := by
            rw [List.length_drop, hc]
            omega
          simp only [segmentsGo, List.length_cons]
          rw [ih _ hd]
          rw [List.length_drop, hc]
          omega

theorem segmentsGo_get : ∀ (size fuel i : Nat) (bs : List Nat), 0 < size →
    bs.length ≤ fuel →
    (segmentsGo size fuel bs).get? i =
      if i < (segmentsGo size fuel bs).length
      then some ((bs.drop (i * size)).take size) else none := by
  intro size fuel
  induction fuel with
  | zero =>
      intro i bs _ h
      cases bs with
      | nil => simp [segmentsGo]
      | cons b rest => simp at h
  | succ fuel ih =>
      intro i bs hsz h
      cases bs with
      | nil => simp [segmentsGo]
      | cons b rest =>
          have hc : (b :: rest).length = rest.length + 1 := rfl
          rw [hc] at h
          have hd : ((b :: rest).drop size).length ≤ fuel := by
            rw [List.length_drop, hc]
            omega
          cases i with
          | zero => simp [segmentsGo]
          | succ j =>
              simp only [segmentsGo, List.get?, List.length_cons]
              rw [ih j _ hsz hd]
              rw [List.drop_drop]
              have harith : size + j * size = (j + 1) * size := by ring
              rw [harith]
              simp [Nat.succ_lt_succ_iff]

/-- C9.  For every video byte string, the fingerprint bundle carries the
exact digest of the raw bytes and the ordered sequence of fixed-size (1 MiB)
segment digests: the sequence has length `min ⌈len/1MiB⌉ 10` (the number of
segments, capped at the maximum segment count 10), and its `i`-th entry is
the labelled truncated digest of the `i`-th segment. -/
theorem C9_video_fingerprint (video_bytes : List Nat) :
    (FingerprintBundle.create_for_video video_bytes).get? "sha256_canonical"
      = some (.str (sha256hex video_bytes))
  ∧ (FingerprintBundle.create_for_video video_bytes).get? "segmentHashes"
      = some (.arr ((PerceptualHash.compute_video_segment_hashes
          video_bytes 1048576).map Json.str))
  ∧ (PerceptualHash.compute_video_segment_hashes video_bytes 1048576).length
      = min ((video_bytes.length + 1048575) / 1048576) 10
  ∧ (∀ i : Nat,
      i < (PerceptualHash.compute_video_segment_hashes video_bytes 1048576).length →
      (PerceptualHash.compute_video_segment_hashes video_bytes 1048576).get? i
        = some ("seg_" ++ toString i ++ ":" ++
            String.mk ((sha256hexChars
              ((video_bytes.drop (i * 1048576)).take 1048576)).take 16))) := by
  have hlen : (PerceptualHash.compute_video_segment_hashes video_bytes 1048576).length
      = min ((video_bytes.length + 1048575) / 1048576) 10 := by
    unfold PerceptualHash.compute_video_segment_hashes
    rw [List.length_take, List.length_map, List.enum_length]
    unfold segmentsOf
    rw [segmentsGo_length_1M _ _ (le_refl _), Nat.min_comm]
  refine ⟨rfl, rfl, hlen, ?_⟩
  intro i hi
  rw [hlen] at hi
  have hseg : i < (segmentsOf 1048576 video_bytes).length := by
    unfold segmentsOf
    rw [segmentsGo_length_1M _ _ (le_refl _)]
    omega
  unfold PerceptualHash.compute_video_segment_hashes
  rw [List.get?_take (by omega : i < 10)]
  rw [List.get?_map, List.enum_get?]
  unfold segmentsOf
  rw [segmentsGo_get _ _ _ _ (by omega) (le_refl _),
    if_pos (by exact hseg)]
  rfl

/-- Witness for C9 at the one-byte input `[7]`: one segment, and entry 0 is
the digest of the whole input. -/
theorem C9_video_fingerprint_witness :
    (PerceptualHash.compute_video_segment_hashes [7] 1048576).length
      = min ((1 + 1048575) / 1048576) 10
  ∧ (0 < (PerceptualHash.compute_video_segment_hashes [7] 1048576).length
      ∧ (PerceptualHash.compute_video_segment_hashes [7] 1048576).get? 0
        = some ("seg_" ++ toString 0 ++ ":" ++
            String.mk ((sha256hexChars ((([7] : List Nat).drop (0 * 1048576)).take
              1048576)).take 16))) :=
  ⟨(C9_video_fingerprint [7]).2.2.1,
   by decide,
   (C9_video_fingerprint [7]).2.2.2 0 (by decide)⟩

/-! ## Support lemmas: `bytes.strip` under whitespace padding -/

theorem dropWhile_append_all {p : Nat → Bool} :
    ∀ {w u : List Nat}, (∀ b ∈ w, p b = true) →
    (w ++ u).dropWhile p = u.dropWhile p := by
  intro w
  induction w with
  | nil => intro u _; rfl
  | cons x xs ih =>
      intro u hw
      rw [List.cons_append, List.dropWhile_cons, if_pos (hw x (by simp))]
      exact ih (fun b hb => hw b (by simp [hb]))

theorem dropWhile_all_true {p : Nat → Bool} {w : List Nat}
    (hw : ∀ b ∈ w, p b = true) : w.dropWhile p = [] := by
  have := dropWhile_append_all (u := ([] : List Nat)) hw
  simpa using this

theorem bytesStrip_pad : ∀ (u w1 w2 : List Nat),
    (∀ b ∈ w1, isWSByte b = true) → (∀ b ∈ w2, isWSByte b = true) →
    wsTrimmed u = true →
    bytesStrip (w1 ++ (u ++ w2)) = u := by
  intro u w1 w2 h1 h2 htr
  unfold bytesStrip
  rw [dropWhile_append_all h1]
  cases u with
  | nil =>
      simp only [List.nil_append]
      rw [dropWhile_all_true h2]
      rfl
  | cons x xs =>
      have hx : isWSByte x = false := by
        unfold wsTrimmed at htr
        rw [Bool.and_eq_true] at htr
        have := htr.1
        simp only [List.head?_cons] at this
        simpa using this
      have hlast : ∀ b, (x :: xs).getLast? = some b → isWSByte b = false := by
        intro b hb
        unfold wsTrimmed at htr
        rw [Bool.and_eq_true] at htr
        have := htr.2
        rw [hb] at this
        simpa using this
      rw [List.cons_append, List.dropWhile_cons, if_neg (by simp [hx])]
      rw [← List.cons_append, List.reverse_append]
      rw [dropWhile_append_all (fun b hb => h2 b (by simpa using hb))]
      have hrev : ((x :: xs).reverse).dropWhile isWSByte = (x :: xs).reverse := by
        cases hr : (x :: xs).reverse with
        | nil => simp at hr
        | cons y ys =>
            have hy : (x :: xs).getLast? = some y := by
              rw [← List.head?_reverse, hr]
              rfl
            rw [List.dropWhile_cons, if_neg (by simp [hlast y hy])]
      rw [hrev, List.reverse_reverse]

/-- C7 (counterexample).  The claim asserts that two inputs differing only in
case produce *identical text fingerprints* under canonical normalization; in
the code the `textFingerprint` field is computed over the raw, unnormalized
bytes, so `b"hello world"` and `b"Hello World"` — case variants of each
other — receive different text fingerprints (it is the `sha256_canonical`
field that normalization makes equal). -/
theorem C7_counterexample :
    CaseWsVariant (utf8Encode "hello world") (utf8Encode "Hello World")
  ∧ PerceptualHash.compute_text_fingerprint (utf8Encode "hello world")
      ≠ PerceptualHash.compute_text_fingerprint (utf8Encode "Hello World")
  ∧ (FingerprintBundle.create_for_text (utf8Encode "hello world") true).get?
      "textFingerprint"
      = some (.str (PerceptualHash.compute_text_fingerprint (utf8Encode "hello world")))
  ∧ (FingerprintBundle.create_for_text (utf8Encode "Hello World") true).get?
      "textFingerprint"
      = some (.str (PerceptualHash.compute_text_fingerprint (utf8Encode "Hello World"))) := by
  refine ⟨?_, by decide, rfl, rfl⟩
  refine ⟨utf8Encode "hello world", utf8Encode "Hello World", [], [], [], [],
    by simp, by simp, by simp, by simp, by simp, by simp, by decide, by decide, by decide⟩

/-- C7 (amended).  With canonical normalization enabled, two inputs that
differ only in leading/trailing whitespace and letter case get identical
`sha256_canonical` digests (computed over `strip().lower()` of the input),
and the bundle records the applied normalization
(`"strip_whitespace_lowercase"`, or `"none"` when canonical mode is off);
the `textFingerprint` field is computed over the raw unnormalized bytes, and
the two text fingerprints coincide exactly when the truncated digests of the
raw bytes coincide. -/
theorem C7_text_bundle (t1 t2 : List Nat) (h : CaseWsVariant t1 t2) :
    (FingerprintBundle.create_for_text t1 true).get? "sha256_canonical"
      = (FingerprintBundle.create_for_text t2 true).get? "sha256_canonical"
  ∧ (FingerprintBundle.create_for_text t1 true).get? "canonicalization"
      = some (.str "strip_whitespace_lowercase")
  ∧ (FingerprintBundle.create_for_text t1 false).get? "canonicalization"
      = some (.str "none")
  ∧ (FingerprintBundle.create_for_text t1 true).get? "textFingerprint"
      = some (.str ("textfp:" ++ String.mk ((sha256hexChars t1).take 16)))
  ∧ ((FingerprintBundle.create_for_text t1 true).get? "textFingerprint"
      = (FingerprintBundle.create_for_text t2 true).get? "textFingerprint"
     ↔ (sha256hexChars t1).take 16 = (sha256hexChars t2).take 16) := by
  obtain ⟨u1, u2, w1, w2, w3, w4, ht1, ht2, hw1, hw2, hw3, hw4, htr1, htr2, hlow⟩ := h
  have hnorm : bytesLower (bytesStrip t1) = bytesLower (bytesStrip t2) := by
    rw [ht1, ht2, List.append_assoc, List.append_assoc,
      bytesStrip_pad u1 w1 w2 hw1 hw2 htr1,
      bytesStrip_pad u2 w3 w4 hw3 hw4 htr2, hlow]
  refine ⟨?_, rfl, rfl, rfl, ?_⟩
  · have hfield : ∀ t : List Nat,
        (FingerprintBundle.create_for_text t true).get? "sha256_canonical"
        = some (.str (sha256hex (bytesLower (bytesStrip t)))) := fun _ => rfl
    rw [hfield, hfield]
    unfold sha256hex
    rw [hnorm]
  · have hfield : ∀ t : List Nat,
        (FingerprintBundle.create_for_text t true).get? "textFingerprint"
        = some (.str ("textfp:" ++ String.mk ((sha256hexChars t).take 16))) :=
      fun _ => rfl
    rw [hfield, hfield]
    constructor
    · intro heq
      have h1 := Option.some.inj heq
      have h2 : ("textfp:" ++ String.mk ((sha256hexChars t1).take 16)) =
          ("textfp:" ++ String.mk ((sha256hexChars t2).take 16)) := by
        injection h1
      have h3 := congrArg String.data h2
      exact List.append_cancel_left h3
    · intro heq
      rw [heq]

/-- Witness for C7's amended theorem: `b"  hello world "` and
`b"HELLO WORLD"` differ only in edge whitespace and case, and their
`sha256_canonical` digests under canonical normalization coincide. -/
theorem C7_text_bundle_witness :
    CaseWsVariant (utf8Encode "  hello world ") (utf8Encode "HELLO WORLD")
  ∧ (FingerprintBundle.create_for_text (utf8Encode "  hello world ") true).get?
      "sha256_canonical"
    = (FingerprintBundle.create_for_text (utf8Encode "HELLO WORLD") true).get?
      "sha256_canonical" := by
  have hv : CaseWsVariant (utf8Encode "  hello world ") (utf8Encode "HELLO WORLD") :=
    ⟨utf8Encode "hello world", utf8Encode "HELLO WORLD", [32, 32], [32], [], [],
     by decide, by decide, by decide, by decide, by decide, by decide,
     by decide, by decide, by decide⟩
  exact ⟨hv, (C7_text_bundle _ _ hv).1⟩

/-! ## Support lemmas: sorted emission of object members -/

theorem serPairs_eq_map (itemSep kvSep : String) : ∀ l : List (String × Json),
    serPairs itemSep kvSep l = l.map (fun p => (p.1, serJson itemSep kvSep p.2))
  | [] => rfl
  | (k, v) :: rest => by
      simp only [serPairs, List.map_cons]
      rw [serPairs_eq_map itemSep kvSep rest]

theorem serPairs_keys (itemSep kvSep : String) (l : List (String × Json)) :
    (serPairs itemSep kvSep l).map Prod.fst = l.map Prod.fst := by
  rw [serPairs_eq_map, List.map_map]
  rfl

theorem distinctKeys_nodup : ∀ {l : List String}, distinctKeys l = true → l.Nodup := by
  intro l
  induction l with
  | nil => intro _; exact List.nodup_nil
  | cons k rest ih =>
      intro h
      simp only [distinctKeys, Bool.and_eq_true, Bool.not_eq_true'] at h
      refine List.nodup_cons.mpr ⟨?_, ih h.2⟩
      intro hmem
      rw [List.contains_eq_any_beq] at h
      have : rest.any (k == ·) = true := by
        rw [List.any_eq_true]
        exact ⟨k, hmem, by simp⟩
      rw [this] at h
      exact absurd h.1 (by simp)

theorem sortPairs_perm (l : List (String × String)) : (sortPairs l).Perm l :=
  List.perm_insertionSort keyLE l

theorem sortPairs_sorted (l : List (String × String)) :
    List.Sorted keyLE (sortPairs l) := by
  haveI := keyLE_total
  haveI := keyLE_trans
  exact List.sorted_insertionSort keyLE l

theorem sortPairs_congr {l1 l2 : List (String × String)}
    (hperm : l1.Perm l2) (hnd : (l1.map Prod.fst).Nodup) :
    sortPairs l1 = sortPairs l2 := by
  have hp : (sortPairs l1).Perm (sortPairs l2) :=
    ((sortPairs_perm l1).trans hperm).trans (sortPairs_perm l2).symm
  have hnd1 : ((sortPairs l1).map Prod.fst).Nodup :=
    (((sortPairs_perm l1).map Prod.fst).nodup_iff).mpr hnd
  have hnd2 : ((sortPairs l2).map Prod.fst).Nodup :=
    ((hp.map Prod.fst).nodup_iff).mp hnd1
  haveI : IsAntisymm (String × String)
      (fun p q : String × String => strLtChars p.1.data q.1.data = true) :=
    ⟨fun a b h1 h2 => absurd h2 (by rw [strLtChars_asymm h1]; simp)⟩
  have hstrict : ∀ m : List (String × String), List.Sorted keyLE m →
      (m.map Prod.fst).Nodup →
      List.Sorted (fun p q : String × String =>
        strLtChars p.1.data q.1.data = true) m := by
    intro m hs hnodup
    have hne : List.Pairwise (fun p q : String × String => p.1 ≠ q.1) m :=
      List.pairwise_map.mp hnodup
    have hand := List.Pairwise.and hs hne
    refine hand.imp ?_
    intro p q hpq
    obtain ⟨hle, hne'⟩ := hpq
    have hle' : strLtChars q.1.data p.1.data = false := by
      have := hle
      unfold keyLE strLeb at this
      simpa using this
    cases hlt : strLtChars p.1.data q.1.data with
    | true => rfl
    | false =>
        have hdata := strLtChars_eq_of_not hlt hle'
        have : p.1 = q.1 := by
          cases hp1 : p.1
          cases hq1 : q.1
          rw [hp1, hq1] at hdata
          exact congrArg String.mk hdata
        exact absurd this hne'
  exact List.eq_of_perm_of_sorted hp
    (hstrict _ (sortPairs_sorted l1) hnd1)
    (hstrict _ (sortPairs_sorted l2) hnd2)

/-! ## Support lemmas: canonical serialization respects semantic equality -/

theorem semEqPairs_keys : ∀ {l l2 : List (String × Json)}, SemEqPairs l l2 →
    l.map Prod.fst = l2.map Prod.fst
  | _, _, .nil => rfl
  | _, _, .cons k v w lt lt2 _ hl => by
      simp only [List.map_cons]
      rw [semEqPairs_keys hl]

mutual

theorem serJson_semEq (itemSep kvSep : String) :
    ∀ {j1 j2 : Json}, SemEq j1 j2 → nodupDeep j1 = true →
    serJson itemSep kvSep j1 = serJson itemSep kvSep j2
  | _, _, .str s, _ => rfl
  | _, _, .num n, _ => rfl
  | _, _, .bool b, _ => rfl
  | _, _, .null, _ => rfl
  | _, _, .arr xs ys hl, hnd => by
      simp only [serJson]
      rw [serArr_semEq itemSep kvSep hl (by simpa [nodupDeep] using hnd)]
  | _, _, .obj kvs mid kvs2 hp hperm, hnd => by
      simp only [serJson]
      have h1 : distinctKeys (kvs.map Prod.fst) = true ∧ nodupDeepPairs kvs = true := by
        simpa [nodupDeep, Bool.and_eq_true] using hnd
      have hpairs : serPairs itemSep kvSep kvs = serPairs itemSep kvSep mid :=
        serPairs_semEq itemSep kvSep hp h1.2
      have hpermser : (serPairs itemSep kvSep mid).Perm (serPairs itemSep kvSep kvs2) := by
        rw [serPairs_eq_map, serPairs_eq_map]
        exact hperm.map _
      have hndmid : ((serPairs itemSep kvSep mid).map Prod.fst).Nodup := by
        rw [serPairs_keys]
        rw [show mid.map Prod.fst = kvs.map Prod.fst from (semEqPairs_keys hp).symm]
        exact distinctKeys_nodup h1.1
      rw [hpairs, sortPairs_congr hpermser hndmid]

theorem serArr_semEq (itemSep kvSep : String) :
    ∀ {xs ys : List Json}, SemEqList xs ys → nodupDeepList xs = true →
    serArr itemSep kvSep xs = serArr itemSep kvSep ys
  | _, _, .nil, _ => rfl
  | _, _, .cons x y xt yt hx hl, hnd => by
      simp only [serArr]
      have h1 : nodupDeep x = true ∧ nodupDeepList xt = true := by
        simpa [nodupDeepList, Bool.and_eq_true] using hnd
      rw [serJson_semEq itemSep kvSep hx h1.1, serArr_semEq itemSep kvSep hl h1.2]

theorem serPairs_semEq (itemSep kvSep : String) :
    ∀ {l l2 : List (String × Json)}, SemEqPairs l l2 → nodupDeepPairs l = true →
    serPairs itemSep kvSep l = serPairs itemSep kvSep l2
  | _, _, .nil, _ => rfl
  | _, _, .cons k v w lt lt2 hv hl, hnd => by
      simp only [serPairs]
      have h1 : nodupDeep v = true ∧ nodupDeepPairs lt = true := by
        simpa [nodupDeepPairs, Bool.and_eq_true] using hnd
      rw [serJson_semEq itemSep kvSep hv h1.1, serPairs_semEq itemSep kvSep hl h1.2]

end

/-! ## Support lemmas: the canonical serializer emits no whitespace -/

theorem digitChar16_no_ws : ∀ k, k < 16 → isJsonWs (Nat.digitChar k) = false := by
  decide

theorem toDigitsCore_no_ws : ∀ (fuel n : Nat) (ds : List Char),
    (∀ c ∈ ds, isJsonWs c = false) →
    ∀ c ∈ Nat.toDigitsCore 10 fuel n ds, isJsonWs c = false := by
  intro fuel
  induction fuel with
  | zero => intro n ds hds c hc; exact hds c hc
  | succ fuel ih =>
      intro n ds hds c hc
      simp only [Nat.toDigitsCore] at hc
      have hdig : ∀ x ∈ [Nat.digitChar (n % 10)], isJsonWs x = false := by
        intro x hx
        simp at hx
        subst hx
        exact digitChar16_no_ws _ (by omega)
      split at hc
      · rcases List.mem_cons.mp hc with rfl | hc
        · exact hdig _ (by simp)
        · exact hds c hc
      · refine ih _ _ ?_ c hc
        intro x hx
        rcases List.mem_cons.mp hx with rfl | hx
        · exact hdig _ (by simp)
        · exact hds x hx

theorem intRepr_no_ws (n : Int) : ∀ c ∈ (toString n).data, isJsonWs c = false := by
  cases n with
  | ofNat m =>
      intro c hc
      have hd : (toString (Int.ofNat m)).data =
          Nat.toDigitsCore 10 (m + 1) m [] := rfl
      rw [hd] at hc
      exact toDigitsCore_no_ws _ _ _ (by simp) c hc
  | negSucc m =>
      intro c hc
      have hd : (toString (Int.negSucc m)).data =
          '-' :: Nat.toDigitsCore 10 (m + 2) (m + 1) [] := rfl
      rw [hd] at hc
      rcases List.mem_cons.mp hc with rfl | hc
      · decide
      · exact toDigitsCore_no_ws _ _ _ (by simp) c hc

theorem escChar_no_ws {c : Char} (hc : c ≠ ' ') :
    ∀ x ∈ escChar c, isJsonWs x = false := by
  intro x hx
  unfold escChar at hx
  split at hx
  · exact (by decide : ∀ y ∈ (['\\', '"'] : List Char), isJsonWs y = false) x hx
  · split at hx
    · exact (by decide : ∀ y ∈ (['\\', '\\'] : List Char), isJsonWs y = false) x hx
    · split at hx
      · exact (by decide : ∀ y ∈ (['\\', 'n'] : List Char), isJsonWs y = false) x hx
      · split at hx
        · exact (by decide : ∀ y ∈ (['\\', 't'] : List Char), isJsonWs y = false) x hx
        · split at hx
          · exact (by decide : ∀ y ∈ (['\\', 'r'] : List Char), isJsonWs y = false) x hx
          · split at hx
            · exact (by decide :
                ∀ y ∈ (['\\', 'b'] : List Char), isJsonWs y = false) x hx
            · split at hx
              · exact (by decide :
                  ∀ y ∈ (['\\', 'f'] : List Char), isJsonWs y = false) x hx
              · split at hx
                · next hlt =>
                    simp only [List.mem_cons, List.not_mem_nil, or_false] at hx
                    rcases hx with rfl | rfl | rfl | rfl | rfl | rfl
                    · decide
                    · decide
                    · decide
                    · decide
                    · exact digitChar16_no_ws _ (by omega)
                    · exact digitChar16_no_ws _ (by omega)
                · next h1 h2 h3 h4 h5 h6 h7 h8 =>
                    simp only [List.mem_cons, List.not_mem_nil, or_false] at hx
                    subst hx
                    simp only [isJsonWs, Bool.or_eq_false_iff]
                    refine ⟨⟨⟨?_, ?_⟩, ?_⟩, ?_⟩
                    · simpa using hc
                    · simpa using h4
                    · simpa using h3
                    · simpa using h5

theorem quoteStr_no_ws {s : String} (hs : ∀ c ∈ s.data, c ≠ ' ') :
    ∀ x ∈ (quoteStr s).data, isJsonWs x = false := by
  intro x hx
  have hd : (quoteStr s).data = '"' :: ((s.data.map escChar).flatten ++ ['"']) := rfl
  rw [hd] at hx
  rcases List.mem_cons.mp hx with rfl | hx
  · decide
  · rcases List.mem_append.mp hx with hx | hx
    · rw [List.mem_flatten] at hx
      obtain ⟨l, hl, hxl⟩ := hx
      rw [List.mem_map] at hl
      obtain ⟨c, hcs, rfl⟩ := hl
      exact escChar_no_ws (hs c hcs) x hxl
    · simp at hx
      subst hx
      decide

theorem intercalate_go_mem : ∀ (l : List String) (acc sep : String) (c : Char),
    c ∈ (String.intercalate.go acc sep l).data →
    c ∈ acc.data ∨ c ∈ sep.data ∨ ∃ x ∈ l, c ∈ x.data := by
  intro l
  induction l with
  | nil => intro acc sep c hc; exact Or.inl hc
  | cons a as ih =>
      intro acc sep c hc
      have := ih (acc ++ sep ++ a) sep c hc
      rcases this with h | h | ⟨x, hx, hcx⟩
      · have hd : (acc ++ sep ++ a).data = (acc.data ++ sep.data) ++ a.data := rfl
        rw [hd] at h
        rcases List.mem_append.mp h with h | h
        · rcases List.mem_append.mp h with h | h
          · exact Or.inl h
          · exact Or.inr (Or.inl h)
        · exact Or.inr (Or.inr ⟨a, by simp, h⟩)
      · exact Or.inr (Or.inl h)
      · exact Or.inr (Or.inr ⟨x, by simp [hx], hcx⟩)

theorem intercalate_mem (sep : String) (l : List String) (c : Char)
    (hc : c ∈ (String.intercalate sep l).data) :
    c ∈ sep.data ∨ ∃ x ∈ l, c ∈ x.data := by
  cases l with
  | nil => simp [String.intercalate] at hc
  | cons a as =>
      rcases intercalate_go_mem as a sep c hc with h | h | ⟨x, hx, hcx⟩
      · exact Or.inr ⟨a, by simp, h⟩
      · exact Or.inl h
      · exact Or.inr ⟨x, by simp [hx], hcx⟩

mutual

theorem serJson_no_ws : ∀ (j : Json), noSpaceStrings j = true →
    ∀ c ∈ (serJson "," ":" j).data, isJsonWs c = false
  | .str s, h => by
      refine quoteStr_no_ws ?_
      intro c hc
      have h2 : ∀ x ∈ s.data, ¬ x = ' ' := by simpa [noSpaceStrings] using h
      exact h2 c hc
  | .num n, _ => intRepr_no_ws n
  | .bool b, _ => by cases b <;> decide
  | .null, _ => by decide
  | .arr xs, h => by
      intro c hc
      have hd : (serJson "," ":" (.arr xs)).data
          = '[' :: ((String.intercalate "," (serArr "," ":" xs)).data ++ [']']) := rfl
      rw [hd] at hc
      rcases List.mem_cons.mp hc with rfl | hc
      · decide
      · rcases List.mem_append.mp hc with hc | hc
        · rcases intercalate_mem _ _ _ hc with hc | ⟨x, hx, hcx⟩
          · simp at hc
            subst hc
            decide
          · exact serArr_no_ws xs (by simpa [noSpaceStrings] using h) x hx c hcx
        · simp at hc
          subst hc
          decide
  | .obj kvs, h => by
      intro c hc
      have hd : (serJson "," ":" (.obj kvs)).data
          = '\x7b' :: ((String.intercalate ","
              (renderMembers ":" (sortPairs (serPairs "," ":" kvs)))).data
            ++ ['\x7d']) := rfl
      rw [hd] at hc
      rcases List.mem_cons.mp hc with rfl | hc
      · decide
      · rcases List.mem_append.mp hc with hc | hc
        · rcases intercalate_mem _ _ _ hc with hc | ⟨x, hx, hcx⟩
          · simp at hc
            subst hc
            decide
          · rw [renderMembers, List.mem_map] at hx
            obtain ⟨p, hp, rfl⟩ := hx
            have hpmem : p ∈ serPairs "," ":" kvs :=
              (sortPairs_perm _).mem_iff.mp hp
            have hprop := serPairs_no_ws kvs (by simpa [noSpaceStrings] using h) p hpmem
            have hdx : (quoteStr p.1 ++ ":" ++ p.2).data
                = ((quoteStr p.1).data ++ [':']) ++ p.2.data := rfl
            rw [hdx] at hcx
            rcases List.mem_append.mp hcx with hcx | hcx
            · rcases List.mem_append.mp hcx with hcx | hcx
              · exact quoteStr_no_ws hprop.1 c hcx
              · simp at hcx
                subst hcx
                decide
            · exact hprop.2 c hcx
        · simp at hc
          subst hc
          decide

theorem serArr_no_ws : ∀ (xs : List Json), noSpaceList xs = true →
    ∀ s ∈ serArr "," ":" xs, ∀ c ∈ s.data, isJsonWs c = false
  | [], _ => by simp [serArr]
  | x :: rest, h => by
      intro s hs c hc
      have h1 : noSpaceStrings x = true ∧ noSpaceList rest = true := by
        simpa [noSpaceList, Bool.and_eq_true] using h
      rcases List.mem_cons.mp hs with rfl | hs
      · exact serJson_no_ws x h1.1 c hc
      · exact serArr_no_ws rest h1.2 s hs c hc

theorem serPairs_no_ws : ∀ (l : List (String × Json)), noSpacePairs l = true →
    ∀ p ∈ serPairs "," ":" l,
      (∀ c ∈ p.1.data, c ≠ ' ') ∧ (∀ c ∈ p.2.data, isJsonWs c = false)
  | [], _ => by simp [serPairs]
  | (k, v) :: rest, h => by
      intro p hp
      have h1 : ((∀ x ∈ k.data, ¬ x = ' ') ∧ noSpaceStrings v = true) ∧
          noSpacePairs rest = true := by
        simpa [noSpacePairs, Bool.and_eq_true] using h
      rcases List.mem_cons.mp hp with rfl | hp
      · exact ⟨fun c hc => h1.1.1 c hc, serJson_no_ws v h1.1.2⟩
      · exact serPairs_no_ws rest h1.2 p hp

end

/-- C2.  Canonical encoding is deterministic, idempotent and
key-order independent: semantically equal records (same key-value mappings
and sequences, keys inserted in any order, with the duplicate-free keys any
Python dict guarantees) serialize to identical byte sequences; serializing
the same record twice yields the same bytes; object members are emitted with
keys in sorted code-point order; and no insignificant whitespace is emitted
(for records whose strings are space-free, the output contains no whitespace
character at all — tabs, newlines and control characters inside strings are
escaped). -/
theorem C2_canonical_serialize (j1 j2 : Json) (heq : SemEq j1 j2)
    (hnd : nodupDeep j1 = true) :
    CanonicalJSON.serialize j1 = CanonicalJSON.serialize j2
  ∧ CanonicalJSON.serialize j1 = CanonicalJSON.serialize j1
  ∧ (∀ kvs : List (String × Json),
      List.Sorted (fun a b : String => strLeb a b = true)
        ((sortPairs (serPairs "," ":" kvs)).map Prod.fst))
  ∧ (∀ j : Json, noSpaceStrings j = true →
      ∀ c ∈ (serJson "," ":" j).data, isJsonWs c = false) := by
  refine ⟨?_, rfl, ?_, serJson_no_ws⟩
  · unfold CanonicalJSON.serialize utf8Encode
    rw [serJson_semEq "," ":" heq hnd]
  · intro kvs
    exact List.pairwise_map.mpr (sortPairs_sorted (serPairs "," ":" kvs))

/-- Witness for C2: a record with a nested object, with keys supplied in two
different orders at both nesting levels, serializes to identical bytes. -/
theorem C2_canonical_serialize_witness :
    SemEq
      (.obj [("b", .num 1), ("a", .obj [("y", .str "v"), ("x", .null)])])
      (.obj [("a", .obj [("x", .null), ("y", .str "v")]), ("b", .num 1)])
  ∧ nodupDeep (.obj [("b", .num 1), ("a", .obj [("y", .str "v"), ("x", .null)])]) = true
  ∧ CanonicalJSON.serialize
      (.obj [("b", .num 1), ("a", .obj [("y", .str "v"), ("x", .null)])])
    = CanonicalJSON.serialize
      (.obj [("a", .obj [("x", .null), ("y", .str "v")]), ("b", .num 1)]) := by
  have hinner : SemEq (.obj [("y", .str "v"), ("x", .null)])
      (.obj [("x", .null), ("y", .str "v")]) :=
    SemEq.obj _ _ _
      (SemEqPairs.cons "y" _ _ _ _ (SemEq.str "v")
        (SemEqPairs.cons "x" _ _ _ _ SemEq.null SemEqPairs.nil))
      (List.Perm.swap _ _ _)
  have heq : SemEq
      (.obj [("b", .num 1), ("a", .obj [("y", .str "v"), ("x", .null)])])
      (.obj [("a", .obj [("x", .null), ("y", .str "v")]), ("b", .num 1)]) :=
    SemEq.obj _ _ _
      (SemEqPairs.cons "b" _ _ _ _ (SemEq.num 1)
        (SemEqPairs.cons "a" _ _ _ _ hinner SemEqPairs.nil))
      (List.Perm.swap _ _ _)
  exact ⟨heq, by decide,
    (C2_canonical_serialize _ _ heq (by decide)).1⟩


/-! ## Sanity theorems: the embedding reproduces the reference behavior
of `hashlib`, `base64`, `json.dumps` and `re` on known vectors -/

/-- FIPS 180-4 test vector: SHA-256 of the empty message. -/
theorem sha256_vector_empty : sha256hex [] =
    "e3b0c44298fc1c149afbf4c8996fb92427ae41e4649b934ca495991b7852b855" := by decide

/-- FIPS 180-4 test vector: SHA-256 of `b"abc"`. -/
theorem sha256_vector_abc : sha256hex [97, 98, 99] =
    "ba7816bf8f01cfea414140de5dae2223b00361a396177a9cb410ff61f20015ad" := by decide

/-- RFC 4648 vectors for the url-safe unpadded encoding of `sign_detached`. -/
theorem b64url_vectors :
    b64urlEncodeNoPad [104, 101, 108, 108, 111] = "aGVsbG8"
  ∧ b64urlEncodeNoPad [251, 255, 190] = "-_--"
  ∧ b64stdEncode [97] = "YQ=="
  ∧ b64urlDecode "aGVsbG8" = [104, 101, 108, 108, 111] := by
  refine ⟨by decide, by decide, by decide, by decide⟩

/-- CPython `str.encode('utf-8')` on a 1-, 2- and 3-byte code point. -/
theorem utf8_vector : utf8Encode "aé€" = [97, 195, 169, 226, 130, 172] := by decide

/-- CPython `json.dumps(..., ensure_ascii=False, separators=(',', ':'),
sort_keys=True)` outputs on mixed records (escaping, sorting, atoms), and the
default-separator form used by v1. -/
theorem dumps_vectors :
    serJson "," ":" (.obj [("b", .num 1), ("a", .str "h\"i\n")])
      = "\x7b\"a\":\"h\\\"i\\n\",\"b\":1\x7d"
  ∧ serJson "," ":" (.obj [("a", .bool true), ("b", .null), ("c", .arr [.num 1, .num (-2)])])
      = "\x7b\"a\":true,\"b\":null,\"c\":[1,-2]\x7d"
  ∧ serJson ", " ": " (.obj [("b", .num 1), ("a", .num 2)])
      = "\x7b\"a\": 2, \"b\": 1\x7d"
  ∧ CanonicalJSON.serialize (.obj [("k", .str "é")])
      = [123, 34, 107, 34, 58, 34, 195, 169, 34, 125] := by
  refine ⟨by decide, by decide, by decide, by decide⟩

/-- CPython `re.match` outcomes for both DID patterns, including the
`$`-before-trailing-newline quirk. -/
theorem did_regex_vectors :
    DIDManager.validate_did "did:key:zABC123" = true
  ∧ DIDManager.validate_did "did:web:example.com:creators:42" = true
  ∧ DIDManager.validate_did "notadid" = false
  ∧ DIDManager.validate_did "did::" = false
  ∧ DIDManager.validate_did "did:key:abc\n" = true
  ∧ DIDManager.validate_did "did:key:\n" = false
  ∧ DIDManager.validate_did "did:key:a\nb" = false
  ∧ DIDManager.validate_did_v1 "did:key:zABC123" = true
  ∧ DIDManager.validate_did_v1 "did:a:!" = false
  ∧ DIDManager.validate_did_v1 "did:key:abc\n" = true
  ∧ DIDManager.validate_did_v1 "did:a:%" = false
  ∧ DIDManager.validate_did_v1 "did::" = false := by
  refine ⟨by decide, by decide, by decide, by decide, by decide, by decide,
    by decide, by decide, by decide, by decide, by decide, by decide⟩
